import Mathlib

/-!
Pgvpd / Multigres proxy — shallow embedding and verification.

This file embeds the wire-protocol codec (`src/prototype/src/config.ts`,
protocol section) and the per-connection state machine
(`src/unnamed/part_000`, `Connection`) of the pgvpd PostgreSQL proxy,
and proves or refutes the frozen specification claims about them.

Byte buffers are modelled as `List Nat` (one entry per byte, values < 256
whenever produced by the builders).  Strings that the TypeScript source
manipulates (usernames, SQL text, error messages) are modelled as their
byte sequences; the configured separators are modelled as single bytes,
matching the documented single-character configuration
(`--separator <char>`, `--value-separator <c>`).
-/

namespace Pgvpd

/-- ASCII bytes of a string literal (used only with ASCII content). -/
def ascii (s : String) : List Nat := s.toList.map Char.toNat

-- ── Int32 big-endian codec (Node `Buffer.readInt32BE` / `writeInt32BE`) ──

/-- Decode the first four bytes of `l` as a signed big-endian 32-bit
integer, exactly as Node's `buf.readInt32BE(0)` does.  Only called on
buffers with at least four bytes. -/
def readInt32BE (l : List Nat) : Int :=
  match l with
  | b0 :: b1 :: b2 :: b3 :: _ =>
      let u : Nat := b0 * 2 ^ 24 + b1 * 2 ^ 16 + b2 * 2 ^ 8 + b3
      if u < 2 ^ 31 then (u : Int) else (u : Int) - 2 ^ 32
  | _ => 0

/-- Encode a natural number below `2 ^ 31` as four big-endian bytes
(Node's `buf.writeInt32BE`). -/
def int32BE (n : Nat) : List Nat :=
  [n / 2 ^ 24 % 256, n / 2 ^ 16 % 256, n / 2 ^ 8 % 256, n % 256]

theorem readInt32BE_int32BE (n : Nat) (h : n < 2 ^ 31) (rest : List Nat) :
    readInt32BE (int32BE n ++ rest) = (n : Int) := by
  have h0 : n / 2 ^ 24 % 256 = n / 2 ^ 24 := by
    have : n / 2 ^ 24 < 256 := by
      apply Nat.div_lt_of_lt_mul
      omega
    omega
  simp only [int32BE, readInt32BE, List.cons_append]
  have e : n / 2 ^ 24 % 256 * 2 ^ 24 + n / 2 ^ 16 % 256 * 2 ^ 16 +
      n / 2 ^ 8 % 256 * 2 ^ 8 + n % 256 = n := by
    rw [h0]
    omega
  rw [e]
  split
  · rfl
  · omega

-- ── JS `TypedArray.subarray` semantics ──────────────────────────────────

/-- Resolve a possibly negative JS index against a buffer of length `len`:
negative indices count from the end, and the result is clamped to
`[0, len]`. -/
def jsIdx (len : Nat) (i : Int) : Nat :=
  if i < 0 then ((len : Int) + i).toNat else min i.toNat len

/-- `buf.subarray(s, e)` (Node `Buffer` inherits this from `TypedArray`):
the bytes from resolved index `s` up to (exclusive) resolved index `e`,
empty when the resolved start is not below the resolved end. -/
def jsSub (buf : List Nat) (s e : Int) : List Nat :=
  (buf.take (jsIdx buf.length e)).drop (jsIdx buf.length s)

/-- `buf.subarray(s)` — from resolved index `s` to the end. -/
def jsSubFrom (buf : List Nat) (s : Int) : List Nat :=
  buf.drop (jsIdx buf.length s)

-- ── MessageFramer (src/prototype/src/config.ts, protocol section) ──────

/-- `MessageFramer.nextStartupMessage`: the framer's buffer is the
argument; the result is `none` ("need more data" — the buffer is left
unchanged) or `some (msg, rest)` where `rest` is the new buffer. -/
def nextStartupMessage (buf : List Nat) : Option (List Nat × List Nat) :=
  if buf.length < 4 then none
  else
    let len := readInt32BE buf
    if len < 4 ∨ 10240 < len then none
    else if (buf.length : Int) < len then none
    else some (jsSub buf 0 len, jsSubFrom buf len)

/-- A parsed backend message, as built by `nextBackendMessage`. -/
structure BackendMessage where
  type : Nat
  totalLength : Int
  payload : List Nat
  raw : List Nat
deriving Repr, DecidableEq

/-- `MessageFramer.nextBackendMessage`: reads `Byte1(type) Int32(length)
payload`, where the declared length includes its own four bytes but not
the type byte.  The source performs no lower-bound check on the declared
length. -/
def nextBackendMessage (buf : List Nat) : Option (BackendMessage × List Nat) :=
  if buf.length < 5 then none
  else
    let ty := buf.headD 0
    let len := readInt32BE (buf.drop 1)
    let totalLength := 1 + len
    if (buf.length : Int) < totalLength then none
    else
      some ({ type := ty, totalLength := totalLength,
              payload := jsSub buf 5 totalLength,
              raw := jsSub buf 0 totalLength },
            jsSubFrom buf totalLength)

-- ── Message inspection helpers ─────────────────────────────────────────

/-- Single-byte reply denying SSL ('N'). -/
def SSL_DENY : List Nat := [0x4e]

def isSSLRequest (buf : List Nat) : Bool :=
  8 ≤ buf.length && readInt32BE (buf.drop 4) == 80877103

def isCancelRequest (buf : List Nat) : Bool :=
  8 ≤ buf.length && readInt32BE (buf.drop 4) == 80877102

def isAuthOk (m : BackendMessage) : Bool :=
  m.type == 0x52 && 4 ≤ m.payload.length && readInt32BE m.payload == 0

def isReadyForQuery (m : BackendMessage) : Bool := m.type == 0x5a

def isErrorResponse (m : BackendMessage) : Bool := m.type == 0x45

-- ── Startup message codec ──────────────────────────────────────────────

/-- JS `Map.set` on an insertion-ordered association list: replace the
value in place when the key is present, append otherwise. -/
def setAssoc (m : List (List Nat × List Nat)) (k v : List Nat) :
    List (List Nat × List Nat) :=
  match m with
  | [] => [(k, v)]
  | (k', v') :: rest =>
      if k' = k then (k, v) :: rest else (k', v') :: setAssoc rest k v

/-- JS `Map.get`. -/
def getAssoc (m : List (List Nat × List Nat)) (k : List Nat) :
    Option (List Nat) :=
  match m with
  | [] => none
  | (k', v') :: rest => if k' = k then some v' else getAssoc rest k

/-- The key/value scanning loop of `parseStartupMessage`.  `rem` is
`buf.drop offset`, so `buf.indexOf(0, offset)` becomes a `findIdx?` on
`rem` shifted by `offset`; the absolute bound checks against the declared
length are kept verbatim.  The first argument is structural fuel: every
iteration shortens `rem` by at least two bytes, so any fuel exceeding
`rem.length` makes the fuel-exhaustion branch unreachable (the wrapper
below passes `rem.length + 1`). -/
def parseStartupLoop : Nat → List Nat → Nat → Int →
    List (List Nat × List Nat) → List (List Nat × List Nat)
  | 0, _, _, _, acc => acc
  | fuel + 1, rem, offset, len, acc =>
    if (offset : Int) < len - 1 then
      match rem.findIdx? (· == 0) with
      | none => acc
      | some i =>
        if len ≤ (offset + i : Int) then acc
        else
          let key := rem.take i
          let rem1 := rem.drop (i + 1)
          match rem1.findIdx? (· == 0) with
          | none => acc
          | some j =>
            if len ≤ (offset + i + 1 + j : Int) then acc
            else
              parseStartupLoop fuel (rem1.drop (j + 1)) (offset + i + 1 + j + 1)
                len (if key ≠ [] then setAssoc acc key (rem1.take j) else acc)
    else acc

/-- `parseStartupMessage`: skip the 4-byte length and 4-byte protocol
version, then scan null-terminated key/value pairs while the offset is
below `length - 1`. -/
def parseStartupMessage (buf : List Nat) : List (List Nat × List Nat) :=
  parseStartupLoop (buf.length + 1) (buf.drop 8) 8 (readInt32BE buf) []

/-- The byte image of the key/value section of a startup message:
`key \0 value \0` for each pair. -/
def pairsBytes : List (List Nat × List Nat) → List Nat
  | [] => []
  | kv :: rest => kv.1 ++ 0 :: (kv.2 ++ 0 :: pairsBytes rest)

/-- `buildStartupMessage`: `Int32(total length) Int32(196608) pairs \0`. -/
def buildStartupMessage (ps : List (List Nat × List Nat)) : List Nat :=
  int32BE (8 + (pairsBytes ps).length + 1) ++ int32BE 196608 ++
    pairsBytes ps ++ [0]

/-- `buildQueryMessage`: `'Q' Int32(4 + |sql| + 1) sql \0`. -/
def buildQueryMessage (sql : List Nat) : List Nat :=
  0x51 :: int32BE (4 + sql.length + 1) ++ sql ++ [0]

/-- The field list of `buildErrorResponse`: S, V, C, M and (when the JS
`detail` argument is truthy, i.e. present and non-empty) D. -/
def errFields (severity sqlstate message : List Nat)
    (detail : Option (List Nat)) : List (Nat × List Nat) :=
  [(0x53, severity), (0x56, severity), (0x43, sqlstate), (0x4d, message)] ++
    (match detail with
     | some d => if d = [] then [] else [(0x44, d)]
     | none => [])

/-- Byte image of error fields: `Byte1(code) value \0` each. -/
def fieldsBytes : List (Nat × List Nat) → List Nat
  | [] => []
  | (t, v) :: rest => t :: (v ++ 0 :: fieldsBytes rest)

/-- `buildErrorResponse`: `'E' Int32(len) fields \0`. -/
def buildErrorResponse (severity sqlstate message : List Nat)
    (detail : Option (List Nat)) : List Nat :=
  let fb := fieldsBytes (errFields severity sqlstate message detail)
  0x45 :: int32BE (4 + fb.length + 1) ++ fb ++ [0]

-- ── Username / tenant extraction (Connection.handleStartupData) ────────

/-- `rawUser.indexOf(sep)` followed by `slice(0, i)` / `slice(i + 1)`:
`none` when the separator byte does not occur, otherwise the part before
its first occurrence and the part after it. -/
def splitAtSep (sep : Nat) : List Nat → Option (List Nat × List Nat)
  | [] => none
  | c :: cs =>
      if c = sep then some ([], cs)
      else
        match splitAtSep sep cs with
        | none => none
        | some (p, s) => some (c :: p, s)

/-- JS `String.prototype.split` with a single-character separator. -/
def splitOnByte (sep : Nat) : List Nat → List (List Nat)
  | [] => [[]]
  | c :: cs =>
      if c = sep then [] :: splitOnByte sep cs
      else
        match splitOnByte sep cs with
        | [] => [[c]]
        | h :: t => (c :: h) :: t

/-- JS `Array.prototype.join`. -/
def intercalateBytes (sep : List Nat) : List (List Nat) → List Nat
  | [] => []
  | [x] => x
  | x :: xs => x ++ sep ++ intercalateBytes sep xs

/-- Decimal rendering of a count, for interpolated error messages. -/
def natAscii (n : Nat) : List Nat := ascii (Nat.repr n)

/-- The slice of `PgvpdConfig` the connection state machine reads.
Separators are single bytes (the configuration documents them as single
characters). -/
structure Config where
  tenantSeparator : Nat
  valueSeparator : Nat
  contextVariables : List (List Nat)
  superuserBypass : List (List Nat)

/-- Outcome of the username-classification part of `handleStartupData`:
either a `sendErrorAndClose` rejection (always severity `FATAL`), the
superuser bypass, or the tenant path with the extracted role and context
values. -/
inductive StartupDecision where
  | reject (sqlstate message : List Nat) (detail : Option (List Nat))
  | bypass
  | proceed (role : List Nat) (values : List (List Nat))
deriving Repr, DecidableEq

def sepErrMsg (cfg : Config) : List Nat :=
  ascii "Username must contain context values separated by '" ++
    [cfg.tenantSeparator] ++ ascii "'"

def sepErrDetail (cfg : Config) : List Nat :=
  ascii "Expected format: role" ++ [cfg.tenantSeparator] ++
    ascii "value1 (e.g. app_user" ++ [cfg.tenantSeparator] ++ ascii "acme)"

def countErrMsg (cfg : Config) (got : Nat) : List Nat :=
  ascii "Expected " ++ natAscii cfg.contextVariables.length ++
    ascii " context value(s), got " ++ natAscii got

def countErrDetail (cfg : Config) : List Nat :=
  ascii "Context variables: " ++
    intercalateBytes (ascii ", ") cfg.contextVariables ++
    ascii ". Separate values with '" ++ [cfg.valueSeparator] ++ ascii "'."

/-- The username-classification logic of `Connection.handleStartupData`,
starting from `startup.params.get("user")` (`none` when the key is
absent; the JS falsiness test `!rawUser` also rejects the empty string).
The payload is split on the value separator only when more than one
context variable is configured; with a single variable the whole payload
is the one value. -/
def decideStartupUser (cfg : Config) (rawUser? : Option (List Nat)) :
    StartupDecision :=
  match rawUser? with
  | none => .reject (ascii "08004") (ascii "No username in StartupMessage") none
  | some rawUser =>
    if rawUser = [] then
      .reject (ascii "08004") (ascii "No username in StartupMessage") none
    else if rawUser ∈ cfg.superuserBypass then .bypass
    else
      match splitAtSep cfg.tenantSeparator rawUser with
      | none => .reject (ascii "28000") (sepErrMsg cfg) (some (sepErrDetail cfg))
      | some (actualUser, payload) =>
        if actualUser = [] ∨ payload = [] then
          .reject (ascii "28000")
            (ascii "Empty role or context values in username") none
        else
          let values := if 1 < cfg.contextVariables.length
                        then splitOnByte cfg.valueSeparator payload
                        else [payload]
          if values.length ≠ cfg.contextVariables.length then
            .reject (ascii "28000") (countErrMsg cfg values.length)
              (some (countErrDetail cfg))
          else if values.any List.isEmpty then
            .reject (ascii "28000") (ascii "Empty context value in username") none
          else .proceed actualUser values

-- ── SQL escaping (src/unnamed/part_000, escapeLiteral / quoteIdent) ───

/-- Byte class of the literal regex `^[a-zA-Z0-9_\-\.]+$`. -/
def isLitByte (b : Nat) : Bool :=
  (97 ≤ b && b ≤ 122) || (65 ≤ b && b ≤ 90) || (48 ≤ b && b ≤ 57) ||
    b == 95 || b == 45 || b == 46

/-- Byte class of the identifier regex `^[a-zA-Z0-9_]+$`. -/
def isIdentByte (b : Nat) : Bool :=
  (97 ≤ b && b ≤ 122) || (65 ≤ b && b ≤ 90) || (48 ≤ b && b ≤ 57) || b == 95

def litOk (v : List Nat) : Bool := !v.isEmpty && v.all isLitByte

def identOk (v : List Nat) : Bool := !v.isEmpty && v.all isIdentByte

/-- JS `value.replace(/q/g, "qq")` for a single quote byte `q`. -/
def doubleQuoteChar (q : Nat) : List Nat → List Nat
  | [] => []
  | b :: rest =>
      if b = q then q :: q :: doubleQuoteChar q rest
      else b :: doubleQuoteChar q rest

/-- `escapeLiteral`: reject unless the whole value matches the literal
regex, otherwise single-quote it with internal single quotes doubled. -/
def escapeLiteral (v : List Nat) : Except (List Nat) (List Nat) :=
  if litOk v then .ok (39 :: doubleQuoteChar 39 v ++ [39])
  else .error (ascii "Invalid tenant ID: contains disallowed characters: " ++ v)

/-- `quoteIdent`: reject unless the value matches the identifier regex,
otherwise double-quote it with internal double quotes doubled. -/
def quoteIdent (v : List Nat) : Except (List Nat) (List Nat) :=
  if identOk v then .ok (34 :: doubleQuoteChar 34 v ++ [34])
  else .error (ascii "Invalid identifier: " ++ v)

-- ── Injection SQL (Connection.injectTenantContext) ─────────────────────

/-- The `SET <var> = <escaped literal>` clauses, built left to right; the
first escaping failure aborts (the JS `.map` throws).  The connection
reaches injection only with `values` and `vars` of equal length. -/
def buildSetClauses (vars values : List (List Nat)) :
    Except (List Nat) (List (List Nat)) :=
  match vars, values with
  | [], _ => .ok []
  | v :: vs, x :: xs =>
      match escapeLiteral x with
      | .error m => .error m
      | .ok e =>
          match buildSetClauses vs xs with
          | .error m => .error m
          | .ok rest => .ok ((ascii "SET " ++ v ++ ascii " = " ++ e) :: rest)
  | _ :: _, [] => .error []

/-- The SQL text of the injection query: the `SET` clauses, then
`SET ROLE <quoted role>`, joined by `"; "` with a final `";"`. -/
def injectionSqlText (vars values : List (List Nat)) (role : List Nat) :
    Except (List Nat) (List Nat) :=
  match buildSetClauses vars values with
  | .error m => .error m
  | .ok clauses =>
      match quoteIdent role with
      | .error m => .error m
      | .ok qr =>
          .ok (intercalateBytes (ascii "; ")
                (clauses ++ [ascii "SET ROLE " ++ qr]) ++ ascii ";")

-- ── Connection state machine (src/unnamed/part_000, class Connection) ──

/-- The states of the per-connection state machine.  `hung` is a model
artifact: it represents the event handler spinning forever inside the
`while (nextBackendMessage())` loop, which happens exactly when a parsed
frame consumes no bytes (declared length −1); the real process never
returns from the handler, so no further events are processed. -/
inductive ConnState where
  | waitStartup
  | connecting
  | authenticating
  | postAuth
  | injecting
  | transparent
  | closed
  | hung
deriving Repr, DecidableEq

/-- The fields of `Connection` the protocol logic reads or writes.
`clientBuf` / `serverBuf` are the two framers' internal buffers;
`pendingStartup` is the startup frame captured by the `connectUpstream`
closure (written to the upstream when its `connect` callback fires).
Field writes made by the source on paths that immediately reject and
close the connection are dropped: they are unobservable once the state
is `closed`. -/
structure Conn where
  state : ConnState
  clientBuf : List Nat
  serverBuf : List Nat
  contextValues : List (List Nat)
  actualUser : Option (List Nat)
  isBypass : Bool
  bufferedReadyForQuery : Option (List Nat)
  pendingStartup : Option (List Nat)
deriving Repr, DecidableEq

/-- A freshly constructed `Connection`. -/
def initConn : Conn :=
  ⟨.waitStartup, [], [], [], none, false, none, none⟩

/-- Observable actions of one event-handler invocation, in order.
`clientWrite` / `serverWrite` are socket writes; `injectionWrite` is the
single `upstream.write(buildQueryMessage(sql))` in `injectTenantContext`;
`connectUpstream` is the `net.createConnection` call; `clientEnd` is
`client.end()`; `destroySockets` is the socket-destroying body of
`cleanup`.  `obsServerFrame t` is a ghost observation marking that a
complete backend frame with type byte `t` was parsed out of the server
stream — it corresponds to one iteration of a `nextBackendMessage` loop
and emits no bytes. -/
inductive Output where
  | clientWrite (b : List Nat)
  | serverWrite (b : List Nat)
  | injectionWrite (b : List Nat)
  | connectUpstream
  | clientEnd
  | destroySockets
  | obsServerFrame (t : Nat)
deriving Repr, DecidableEq

/-- External events delivered to the connection's handlers: client socket
data, upstream socket data, the upstream `connect` callback, and the
error/close events (both of which run `cleanup`, the former via
`handleError`). -/
inductive Event where
  | clientData (b : List Nat)
  | serverData (b : List Nat)
  | upstreamConnected
  | socketError
  | socketClosed
deriving Repr, DecidableEq

/-- `Connection.cleanup`: a no-op when already `CLOSED`, otherwise set
`CLOSED` and destroy both sockets. -/
def cleanup (c : Conn) : Conn × List Output :=
  if c.state = .closed then (c, [])
  else ({ c with state := .closed }, [.destroySockets])

/-- `Connection.sendErrorAndClose` (severity is always `"FATAL"` at the
call sites): write one `ErrorResponse`, end the client socket, close. -/
def sendErrorAndClose (c : Conn) (sqlstate message : List Nat)
    (detail : Option (List Nat)) : Conn × List Output :=
  ({ c with state := .closed },
   [.clientWrite (buildErrorResponse (ascii "FATAL") sqlstate message detail),
    .clientEnd])

/-- `Connection.enterTransparent`: switch to `TRANSPARENT` and flush any
remaining buffered server bytes to the client. -/
def enterTransparent (c : Conn) : Conn × List Output :=
  let c1 : Conn := { c with state := .transparent }
  if c1.serverBuf = [] then (c1, [])
  else ({ c1 with serverBuf := [] }, [.clientWrite c1.serverBuf])

/-- `Connection.handleStartupData`: push the chunk, try to frame one
startup-phase message, then classify it (SSL denial, cancel, rejection,
bypass, or tenant path with the rewritten startup). -/
def handleStartupData (cfg : Config) (c : Conn) (data : List Nat) :
    Conn × List Output :=
  let buf := c.clientBuf ++ data
  match nextStartupMessage buf with
  | none => ({ c with clientBuf := buf }, [])
  | some (msg, rest) =>
    let c1 : Conn := { c with clientBuf := rest }
    if isSSLRequest msg then (c1, [.clientWrite SSL_DENY])
    else if isCancelRequest msg then ({ c1 with state := .closed }, [.clientEnd])
    else
      let params := parseStartupMessage msg
      match decideStartupUser cfg (getAssoc params (ascii "user")) with
      | .reject st m d => sendErrorAndClose c1 st m d
      | .bypass =>
          ({ c1 with isBypass := true, state := .connecting,
                     pendingStartup := some msg },
           [.connectUpstream])
      | .proceed role values =>
          ({ c1 with actualUser := some role, contextValues := values,
                     state := .connecting,
                     pendingStartup :=
                       some (buildStartupMessage
                              (setAssoc params (ascii "user") role)) },
           [.connectUpstream])

/-- The `connect` callback registered by `Connection.connectUpstream`:
send the (possibly rewritten) startup, forward any client bytes buffered
after it, then go to `TRANSPARENT` (bypass) or `AUTHENTICATING`.
A `pendingStartup` of `none` means `connectUpstream` was never called,
so this callback cannot fire; the event is ignored. -/
def handleUpstreamConnected (c : Conn) : Conn × List Output :=
  match c.pendingStartup with
  | none => (c, [])
  | some s =>
    let o2 : List Output :=
      if c.clientBuf = [] then [] else [.serverWrite c.clientBuf]
    let c1 : Conn := { c with clientBuf := [] }
    if c1.isBypass then
      let r := enterTransparent c1
      (r.1, .serverWrite s :: (o2 ++ r.2))
    else ({ c1 with state := .authenticating }, .serverWrite s :: o2)

/-- `Connection.injectTenantContext`: enter `INJECTING`, build the SQL
and send it as one `Query` message; an escaping failure is a thrown
exception that the `onServerData` catch turns into `handleError` →
`cleanup`. -/
def injectTenantContext (cfg : Config) (c : Conn) : Conn × List Output :=
  let c1 : Conn := { c with state := .injecting }
  match injectionSqlText cfg.contextVariables c1.contextValues
          (c1.actualUser.getD []) with
  | .ok sql => (c1, [.injectionWrite (buildQueryMessage sql)])
  | .error _ => cleanup c1

/-- The `while` loop of `Connection.handleInjectionResponse` over the
framer buffer `buf`.  A parsed frame that fails to shrink the buffer
makes the real loop spin forever: the model moves to `hung`.  The first
argument is structural fuel; every genuine iteration shrinks the buffer,
so any fuel exceeding `buf.length` makes the fuel-exhaustion branch
unreachable (the wrapper passes `buf.length + 1`). -/
def injectionLoopGo : Nat → Conn → List Nat → Conn × List Output
  | 0, c, buf => ({ c with state := .hung, serverBuf := buf }, [])
  | fuel + 1, c, buf =>
    match nextBackendMessage buf with
    | none => ({ c with serverBuf := buf }, [])
    | some (msg, rest) =>
      if rest.length < buf.length then
        if isErrorResponse msg then
          let r := cleanup { c with serverBuf := rest }
          (r.1, .obsServerFrame msg.type :: .clientWrite msg.raw :: r.2)
        else if isReadyForQuery msg then
          let o1 : List Output :=
            match c.bufferedReadyForQuery with
            | some b => [.clientWrite b]
            | none => []
          let c1 : Conn := { c with bufferedReadyForQuery := none,
                                    serverBuf := rest }
          let o2 : List Output :=
            if c1.clientBuf = [] then [] else [.serverWrite c1.clientBuf]
          let r := enterTransparent { c1 with clientBuf := [] }
          (r.1, .obsServerFrame msg.type :: (o1 ++ o2 ++ r.2))
        else
          let o : List Output :=
            if msg.type = 0x53 then [.clientWrite msg.raw] else []
          let r := injectionLoopGo fuel c rest
          (r.1, .obsServerFrame msg.type :: (o ++ r.2))
      else ({ c with state := .hung, serverBuf := buf },
            [.obsServerFrame msg.type])

def handleInjectionLoop (c : Conn) (buf : List Nat) : Conn × List Output :=
  injectionLoopGo (buf.length + 1) c buf

/-- The `while` loop of `Connection.handlePostAuthData`: forward frames
until the first `ReadyForQuery`, which is buffered (not forwarded) and
triggers the injection.  Fuel as in `injectionLoopGo`. -/
def postAuthLoopGo (cfg : Config) : Nat → Conn → List Nat → Conn × List Output
  | 0, c, buf => ({ c with state := .hung, serverBuf := buf }, [])
  | fuel + 1, c, buf =>
    match nextBackendMessage buf with
    | none => ({ c with serverBuf := buf }, [])
    | some (msg, rest) =>
      if rest.length < buf.length then
        if isReadyForQuery msg then
          let c1 : Conn := { c with bufferedReadyForQuery := some msg.raw,
                                    serverBuf := rest }
          let r := injectTenantContext cfg c1
          (r.1, .obsServerFrame msg.type :: r.2)
        else
          let r := postAuthLoopGo cfg fuel c rest
          (r.1, .obsServerFrame msg.type :: .clientWrite msg.raw :: r.2)
      else ({ c with state := .hung, serverBuf := buf },
            [.obsServerFrame msg.type])

def handlePostAuthLoop (cfg : Config) (c : Conn) (buf : List Nat) :
    Conn × List Output :=
  postAuthLoopGo cfg (buf.length + 1) c buf

/-- The `while` loop of `Connection.handleAuthData`: forward every frame
to the client; on `AuthenticationOk` switch to `POST_AUTH` and continue
with the remaining buffered bytes in post-auth mode.  Fuel as in
`injectionLoopGo`. -/
def authLoopGo (cfg : Config) : Nat → Conn → List Nat → Conn × List Output
  | 0, c, buf => ({ c with state := .hung, serverBuf := buf }, [])
  | fuel + 1, c, buf =>
    match nextBackendMessage buf with
    | none => ({ c with serverBuf := buf }, [])
    | some (msg, rest) =>
      if rest.length < buf.length then
        if isAuthOk msg then
          let c1 : Conn := { c with state := .postAuth, serverBuf := rest }
          if rest = [] then
            (c1, [.obsServerFrame msg.type, .clientWrite msg.raw])
          else
            let r := handlePostAuthLoop cfg { c1 with serverBuf := [] } rest
            (r.1, .obsServerFrame msg.type :: .clientWrite msg.raw :: r.2)
        else
          let r := authLoopGo cfg fuel c rest
          (r.1, .obsServerFrame msg.type :: .clientWrite msg.raw :: r.2)
      else ({ c with state := .hung, serverBuf := buf },
            [.obsServerFrame msg.type])

def handleAuthLoop (cfg : Config) (c : Conn) (buf : List Nat) :
    Conn × List Output :=
  authLoopGo cfg (buf.length + 1) c buf

/-- One event-handler invocation: the `switch (this.state)` dispatch of
`onClientData` / `onServerData`, the upstream `connect` callback, and the
error / close handlers (both reach `cleanup`). -/
def step (cfg : Config) (c : Conn) (e : Event) : Conn × List Output :=
  if c.state = .hung then (c, [])
  else
    match e with
    | .clientData b =>
        match c.state with
        | .waitStartup => handleStartupData cfg c b
        | .authenticating => (c, [.serverWrite b])
        | .postAuth => (c, [.serverWrite b])
        | .injecting => ({ c with clientBuf := c.clientBuf ++ b }, [])
        | .transparent => (c, [.serverWrite b])
        | _ => (c, [])
    | .serverData b =>
        match c.state with
        | .transparent => (c, [.clientWrite b])
        | .authenticating => handleAuthLoop cfg c (c.serverBuf ++ b)
        | .postAuth => handlePostAuthLoop cfg c (c.serverBuf ++ b)
        | .injecting => handleInjectionLoop c (c.serverBuf ++ b)
        | _ => (c, [.clientWrite b])
    | .upstreamConnected => handleUpstreamConnected c
    | .socketError => cleanup c
    | .socketClosed => cleanup c

/-- Run a sequence of events, accumulating the outputs in order. -/
def run (cfg : Config) (c : Conn) : List Event → Conn × List Output
  | [] => (c, [])
  | e :: es =>
      let r := step cfg c e
      let r2 := run cfg r.1 es
      (r2.1, r.2 ++ r2.2)

-- ── Server frame streams and output ordering (C1) ──────────────────────

/-- An abstract backend frame: a type byte and a payload.  Its declared
length field is `4 + payload.length` (the length includes its own four
bytes but not the type byte). -/
structure Frame where
  type : Nat
  payload : List Nat
deriving Repr, DecidableEq

/-- Wire encoding of one backend frame. -/
def encodeFrame (f : Frame) : List Nat :=
  f.type :: (int32BE (4 + f.payload.length) ++ f.payload)

/-- Wire encoding of a frame stream. -/
def encodeFrames : List Frame → List Nat
  | [] => []
  | f :: fs => encodeFrame f ++ encodeFrames fs

/-- Every frame's declared length fits the signed 32-bit length field. -/
def wfFrames (fs : List Frame) : Prop :=
  ∀ f ∈ fs, 4 + f.payload.length < 2 ^ 31

instance (fs : List Frame) : Decidable (wfFrames fs) := by
  unfold wfFrames
  infer_instance

/-- `isAuthOk` stated on an abstract frame. -/
def isAuthOkFrame (f : Frame) : Bool :=
  f.type == 0x52 && 4 ≤ f.payload.length && readInt32BE f.payload == 0

/-- No ReadyForQuery frame ('Z') occurs strictly before the first
AuthenticationOk frame of the stream (which a real PostgreSQL backend
guarantees: 'Z' is sent only once the session is ready). -/
def noEarlyRfq : List Frame → Bool
  | [] => true
  | f :: fs =>
      if isAuthOkFrame f then true else !(f.type == 0x5a) && noEarlyRfq fs

/-- All bytes delivered by the upstream socket over an event sequence. -/
def serverBytes : List Event → List Nat
  | [] => []
  | Event.serverData b :: es => b ++ serverBytes es
  | _ :: es => serverBytes es

/-- Environment conformance for one event: upstream data only arrives in
the states where the upstream socket exists and is being read, and the
`connect` callback fires only while `CONNECTING`. -/
def eventOkB (c : Conn) : Event → Bool
  | .serverData _ =>
      c.state == ConnState.authenticating || c.state == ConnState.postAuth ||
      c.state == ConnState.injecting || c.state == ConnState.transparent
  | .upstreamConnected => c.state == ConnState.connecting
  | _ => true

/-- Conformance of a whole event sequence against the evolving state. -/
def eventsOkB (cfg : Config) : Conn → List Event → Bool
  | _, [] => true
  | c, e :: es => eventOkB c e && eventsOkB cfg (step cfg c e).1 es

/-- A client-socket write whose first byte is 'Z' (ReadyForQuery). -/
def isZwrite : Output → Bool
  | .clientWrite b => b.headD 0 == 0x5a
  | _ => false

/-- No ReadyForQuery-headed client write occurs in `os`. -/
def noZw (os : List Output) : Prop := ∀ o ∈ os, isZwrite o = false

/-- The temporal property C1 asserts of an output trace: at the first
ReadyForQuery-headed client write, the outputs before it contain the
injection `Query` write and end with the observation of a complete
server frame of type 'Z' — the upstream's ReadyForQuery answering the
injection, parsed immediately before the buffered frame is released. -/
def firstZOrdered (outs : List Output) : Prop :=
  ∀ i, outs.findIdx? isZwrite = some i →
    (∃ q, Output.injectionWrite q ∈ outs.take i) ∧
    (outs.take i).getLast? = some (Output.obsServerFrame 0x5a)

/-- Per-state run invariant for C1.  Before `INJECTING`: no 'Z'-headed
client write yet, not bypass, and the unconsumed plus future server
bytes are a prefix of a well-formed frame stream (RFQ-free up to
AuthenticationOk until authentication completes).  In `INJECTING`: the
injection write has been emitted and the first ReadyForQuery sits
buffered (head byte 'Z').  From `TRANSPARENT` on, the trace emitted so
far already satisfies `firstZOrdered`. -/
def C1Inv (outs : List Output) (c : Conn) (evs : List Event) : Prop :=
  match c.state with
  | .waitStartup =>
      noZw outs ∧ c.isBypass = false ∧
      ∃ fs, wfFrames fs ∧ noEarlyRfq fs = true ∧
        (c.serverBuf ++ serverBytes evs) <+: encodeFrames fs
  | .connecting =>
      noZw outs ∧ c.isBypass = false ∧
      ∃ fs, wfFrames fs ∧ noEarlyRfq fs = true ∧
        (c.serverBuf ++ serverBytes evs) <+: encodeFrames fs
  | .authenticating =>
      noZw outs ∧ c.isBypass = false ∧
      ∃ fs, wfFrames fs ∧ noEarlyRfq fs = true ∧
        (c.serverBuf ++ serverBytes evs) <+: encodeFrames fs
  | .postAuth =>
      noZw outs ∧ c.isBypass = false ∧
      ∃ fs, wfFrames fs ∧
        (c.serverBuf ++ serverBytes evs) <+: encodeFrames fs
  | .injecting =>
      noZw outs ∧ c.isBypass = false ∧
      (∃ q, Output.injectionWrite q ∈ outs) ∧
      (∃ r, c.bufferedReadyForQuery = some r ∧ r.headD 0 = 0x5a) ∧
      ∃ fs, wfFrames fs ∧
        (c.serverBuf ++ serverBytes evs) <+: encodeFrames fs
  | .transparent =>
      firstZOrdered outs ∧ (outs.findIdx? isZwrite).isSome = true
  | .closed => firstZOrdered outs
  | .hung => firstZOrdered outs

-- ════════════════════════════════════════════════════════════════════════
-- Theorems
-- ════════════════════════════════════════════════════════════════════════

-- ── C7: startup framer bounds ──────────────────────────────────────────

/-- **C7, counterexample.**  The claim says a startup frame is yielded
only when the declared length is at least 8; the framer's actual lower
bound is 4, so the four-byte buffer `[0,0,0,4]` (declared length 4) is
yielded as a complete frame.  Moreover a malformed declared length (here
3) does not abort: the framer returns "need more data" and the buffer is
left in place, even after more bytes arrive. -/
theorem C7_counterexample :
    nextStartupMessage [0, 0, 0, 4] = some ([0, 0, 0, 4], []) ∧
    readInt32BE [0, 0, 0, 4] < 8 ∧
    nextStartupMessage [0, 0, 0, 3, 1, 1, 1, 1] = none := by decide

/-- **C7, amended.**  `nextStartupMessage` yields a startup frame exactly
when at least four bytes are buffered, the declared 4-byte length is
between 4 and the 10 KiB sanity cap (10240), and at least that many
bytes have arrived; the yielded frame is the first `length` bytes and
the rest stays buffered.  In every other case (incomplete frame or
out-of-bounds declared length alike) it yields nothing and consumes
nothing — there is no abort. -/
theorem C7_amended (buf msg rest : List Nat) :
    nextStartupMessage buf = some (msg, rest) ↔
      4 ≤ buf.length ∧ 4 ≤ readInt32BE buf ∧ readInt32BE buf ≤ 10240 ∧
      readInt32BE buf ≤ (buf.length : Int) ∧
      msg = buf.take (readInt32BE buf).toNat ∧
      rest = buf.drop (readInt32BE buf).toNat := by
  simp only [nextStartupMessage]
  split
  · rename_i hlt
    constructor
    · intro h
      exact absurd h (by simp)
    · intro ⟨h4, _⟩
      omega
  · rename_i hge
    split
    · rename_i hbad
      constructor
      · intro h
        exact absurd h (by simp)
      · intro ⟨_, h1, h2, _⟩
        omega
    · rename_i hok
      push_neg at hok
      split
      · rename_i hshort
        constructor
        · intro h
          exact absurd h (by simp)
        · intro ⟨_, _, _, h3, _⟩
          omega
      · rename_i hfull
        push_neg at hfull
        have hpos : ¬ readInt32BE buf < 0 := by omega
        have h0 : jsIdx buf.length 0 = 0 := by
          simp [jsIdx]
        have hlen : jsIdx buf.length (readInt32BE buf) =
            (readInt32BE buf).toNat := by
          unfold jsIdx
          rw [if_neg hpos]
          exact Nat.min_eq_left (by omega)
        simp only [jsSub, jsSubFrom, h0, hlen, List.drop_zero,
          Option.some.injEq, Prod.mk.injEq]
        constructor
        · rintro ⟨hm, hr⟩
          exact ⟨by omega, by omega, by omega, by omega, hm.symm, hr.symm⟩
        · rintro ⟨_, _, _, _, hm, hr⟩
          exact ⟨hm.symm, hr.symm⟩

/-- **C7, witness for the amended theorem.**  A well-formed eight-byte
startup frame is yielded whole. -/
theorem C7_amended_witness :
    nextStartupMessage [0, 0, 0, 8, 0, 3, 0, 0] =
      some ([0, 0, 0, 8, 0, 3, 0, 0], []) :=
  (C7_amended [0, 0, 0, 8, 0, 3, 0, 0] [0, 0, 0, 8, 0, 3, 0, 0] []).mpr
    (by decide)

-- ── C8: backend framer consumes a non-positive byte count ──────────────

/-- **C8 (code bug).**  `nextBackendMessage` never checks that the
declared length is at least 4.  With declared length 0 it yields a frame
while consuming only one byte, and with declared length −1 (bytes
`FF FF FF FF`) it yields a frame while consuming zero bytes — the
`while ((msg = nextBackendMessage()) !== null)` loops in the data
handlers then never terminate.  Both contradict the claim that a frame
is yielded only when the declared length is at least 4 and that every
yield consumes a positive number of bytes. -/
theorem C8_code_bug :
    nextBackendMessage [0x5a, 0, 0, 0, 0] =
      some (⟨0x5a, 1, [], [0x5a]⟩, [0, 0, 0, 0]) ∧
    nextBackendMessage [0x5a, 255, 255, 255, 255] =
      some (⟨0x5a, 0, [], []⟩, [0x5a, 255, 255, 255, 255]) := by decide

-- ── C9: SQL escaping ───────────────────────────────────────────────────

lemma doubleQuoteChar_eq_self (q : Nat) (v : List Nat)
    (h : ∀ b ∈ v, b ≠ q) : doubleQuoteChar q v = v := by
  induction v with
  | nil => rfl
  | cons b rest ih =>
      have hb : b ≠ q := h b (by simp)
      simp only [doubleQuoteChar, if_neg hb]
      rw [ih (fun x hx => h x (by simp [hx]))]

lemma litOk_iff (v : List Nat) :
    litOk v = true ↔ v ≠ [] ∧ ∀ b ∈ v, isLitByte b = true := by
  simp [litOk, List.isEmpty_iff, List.all_eq_true]

lemma identOk_iff (v : List Nat) :
    identOk v = true ↔ v ≠ [] ∧ ∀ b ∈ v, isIdentByte b = true := by
  simp [identOk, List.isEmpty_iff, List.all_eq_true]

/-- **C9.**  `escapeLiteral` throws exactly when the value fails the
literal regex `^[A-Za-z0-9_\-.]+$` (modelled byte-wise by `isLitByte`),
and otherwise returns the value single-quoted with internal single
quotes doubled (under the regex there are none, so the doubling is the
identity); `quoteIdent` behaves the same way for `^[A-Za-z0-9_]+$` and
double quotes; and when building the injection SQL throws, the
connection is closed (sockets destroyed) and no injection `Query` is
ever written. -/
theorem C9_escaping :
    (∀ v, (∃ e, escapeLiteral v = .error e) ↔
        ¬(v ≠ [] ∧ ∀ b ∈ v, isLitByte b = true)) ∧
    (∀ v, v ≠ [] → (∀ b ∈ v, isLitByte b = true) →
        escapeLiteral v = .ok (39 :: doubleQuoteChar 39 v ++ [39]) ∧
        doubleQuoteChar 39 v = v) ∧
    (∀ v, (∃ e, quoteIdent v = .error e) ↔
        ¬(v ≠ [] ∧ ∀ b ∈ v, isIdentByte b = true)) ∧
    (∀ v, v ≠ [] → (∀ b ∈ v, isIdentByte b = true) →
        quoteIdent v = .ok (34 :: doubleQuoteChar 34 v ++ [34]) ∧
        doubleQuoteChar 34 v = v) ∧
    (∀ (cfg : Config) (c : Conn) (e : List Nat),
        injectionSqlText cfg.contextVariables c.contextValues
            (c.actualUser.getD []) = .error e →
        injectTenantContext cfg c =
          ({ c with state := .closed }, [.destroySockets])) := by
  refine ⟨fun v => ?_, fun v h1 h2 => ?_, fun v => ?_, fun v h1 h2 => ?_,
    fun cfg c e he => ?_⟩
  · rw [← litOk_iff]
    unfold escapeLiteral
    cases h : litOk v <;> simp [h]
  · have hok : litOk v = true := (litOk_iff v).mpr ⟨h1, h2⟩
    refine ⟨by simp [escapeLiteral, hok], ?_⟩
    refine doubleQuoteChar_eq_self 39 v (fun b hb => ?_)
    intro hq
    have := h2 b hb
    rw [hq] at this
    simp [isLitByte] at this
  · rw [← identOk_iff]
    unfold quoteIdent
    cases h : identOk v <;> simp [h]
  · have hok : identOk v = true := (identOk_iff v).mpr ⟨h1, h2⟩
    refine ⟨by simp [quoteIdent, hok], ?_⟩
    refine doubleQuoteChar_eq_self 34 v (fun b hb => ?_)
    intro hq
    have := h2 b hb
    rw [hq] at this
    simp [isIdentByte] at this
  · show (let c1 : Conn := { c with state := .injecting };
      match injectionSqlText cfg.contextVariables c1.contextValues
              (c1.actualUser.getD []) with
      | .ok sql => (c1, [Output.injectionWrite (buildQueryMessage sql)])
      | .error _ => cleanup c1) = _
    simp only [he, cleanup]
    rfl

/-- **C9, witness.**  A concrete accepted literal, a concrete rejected
one, and a concrete connection closed by a rejected context value
without the injection query ever being sent. -/
theorem C9_escaping_witness :
    escapeLiteral (ascii "acme") =
      .ok (39 :: doubleQuoteChar 39 (ascii "acme") ++ [39]) ∧
    (∃ e, escapeLiteral (ascii "bad!") = .error e) ∧
    injectTenantContext ⟨46, 58, [ascii "app.t"], []⟩
        ⟨.postAuth, [], [], [ascii "bad!"], some (ascii "app_user"), false,
          some [0x5a, 0, 0, 0, 5, 73], none⟩ =
      (⟨.closed, [], [], [ascii "bad!"], some (ascii "app_user"), false,
          some [0x5a, 0, 0, 0, 5, 73], none⟩, [.destroySockets]) := by
  refine ⟨(C9_escaping.2.1 (ascii "acme") (by decide) (by decide)).1,
    (C9_escaping.1 (ascii "bad!")).mpr (by decide),
    C9_escaping.2.2.2.2 _ _
      (ascii "Invalid tenant ID: contains disallowed characters: bad!")
      (by rfl)⟩

-- ── C2: tenant identity extraction ─────────────────────────────────────

lemma splitAtSep_of_mem (sep : Nat) (u : List Nat) (h : sep ∈ u) :
    splitAtSep sep u =
      some (u.takeWhile (· != sep), (u.dropWhile (· != sep)).tail) := by
  induction u with
  | nil => cases h
  | cons c cs ih =>
      by_cases hc : c = sep
      · subst hc
        simp [splitAtSep, List.takeWhile, List.dropWhile]
      · have hmem : sep ∈ cs := by
          cases h with
          | head => exact absurd rfl hc
          | tail _ h => exact h
        have hne : (c != sep) = true := by simp [hc]
        simp [splitAtSep, if_neg hc, ih hmem, List.takeWhile, List.dropWhile, hne]

lemma splitAtSep_eq_none_of (sep : Nat) (u : List Nat) (h : sep ∉ u) :
    splitAtSep sep u = none := by
  induction u with
  | nil => rfl
  | cons c cs ih =>
      have hc : c ≠ sep := fun hx => h (List.mem_cons.mpr (Or.inl hx.symm))
      have hcs := ih (fun hx => h (List.mem_cons_of_mem c hx))
      simp only [splitAtSep, if_neg hc, hcs]

lemma splitAtSep_eq_none (sep : Nat) (u : List Nat) :
    splitAtSep sep u = none ↔ sep ∉ u := by
  constructor
  · intro h hmem
    rw [splitAtSep_of_mem sep u hmem] at h
    cases h
  · exact splitAtSep_eq_none_of sep u

/-- **C2, counterexample.**  With the default single context variable
and value separator `:`, the claim predicts that the payload `a:b`
splits into two values and (two ≠ one) the connection is rejected with
SQLSTATE 28000; the code never splits when only one context variable is
configured, and accepts the whole payload as the single value. -/
theorem C2_counterexample :
    decideStartupUser ⟨46, 58, [ascii "app.current_tenant_id"],
        [ascii "postgres"]⟩ (some (ascii "app_user.a:b")) =
      .proceed (ascii "app_user") [ascii "a:b"] ∧
    (splitOnByte 58 (ascii "a:b")).length ≠ 1 := by decide

/-- **C2, amended.**  For a non-bypass user containing the tenant
separator: the prefix before the first separator becomes the effective
role and the suffix becomes the context values — split on the value
separator only when more than one context variable is configured, and
taken whole as the single value otherwise.  The connection proceeds
exactly when the role and suffix are non-empty, the number of values
equals the number of configured context variables, and no value is
empty; each failing condition yields a FATAL rejection with SQLSTATE
28000. -/
theorem C2_amended (cfg : Config) (u role payload : List Nat)
    (values : List (List Nat))
    (hbp : u ∉ cfg.superuserBypass)
    (hmem : cfg.tenantSeparator ∈ u)
    (hrole : role = u.takeWhile (· != cfg.tenantSeparator))
    (hpay : payload = (u.dropWhile (· != cfg.tenantSeparator)).tail)
    (hvals : values = if 1 < cfg.contextVariables.length
                      then splitOnByte cfg.valueSeparator payload
                      else [payload]) :
    (role ≠ [] → payload ≠ [] →
      values.length = cfg.contextVariables.length →
      (∀ v ∈ values, v ≠ []) →
      decideStartupUser cfg (some u) = .proceed role values) ∧
    (role = [] ∨ payload = [] →
      decideStartupUser cfg (some u) =
        .reject (ascii "28000")
          (ascii "Empty role or context values in username") none) ∧
    (role ≠ [] → payload ≠ [] →
      values.length ≠ cfg.contextVariables.length →
      decideStartupUser cfg (some u) =
        .reject (ascii "28000") (countErrMsg cfg values.length)
          (some (countErrDetail cfg))) ∧
    (role ≠ [] → payload ≠ [] →
      values.length = cfg.contextVariables.length →
      (∃ v ∈ values, v = []) →
      decideStartupUser cfg (some u) =
        .reject (ascii "28000") (ascii "Empty context value in username")
          none) := by
  subst hrole hpay hvals
  have hne : u ≠ [] := by
    intro h
    rw [h] at hmem
    cases hmem
  have hsplit := splitAtSep_of_mem cfg.tenantSeparator u hmem
  refine ⟨fun h1 h2 h3 h4 => ?_, fun h12 => ?_, fun h1 h2 h3 => ?_,
    fun h1 h2 h3 h4 => ?_⟩
  · have h4' : ((if 1 < cfg.contextVariables.length
        then splitOnByte cfg.valueSeparator
          ((u.dropWhile (· != cfg.tenantSeparator)).tail)
        else [(u.dropWhile (· != cfg.tenantSeparator)).tail]).any
          List.isEmpty) = false := by
      rw [Bool.eq_false_iff]
      intro hany
      rcases List.any_eq_true.mp hany with ⟨v, hv, hve⟩
      exact h4 v hv (List.isEmpty_iff.mp hve)
    simp only [decideStartupUser, if_neg hne, if_neg hbp, hsplit,
      if_neg (not_or.mpr ⟨h1, h2⟩), h4', Bool.false_eq_true, if_false]
    rw [if_neg (fun hx => hx h3)]
  · simp only [decideStartupUser, if_neg hne, if_neg hbp, hsplit,
      if_pos h12]
  · simp only [decideStartupUser, if_neg hne, if_neg hbp, hsplit,
      if_neg (not_or.mpr ⟨h1, h2⟩), if_pos h3]
  · have h4' : ((if 1 < cfg.contextVariables.length
        then splitOnByte cfg.valueSeparator
          ((u.dropWhile (· != cfg.tenantSeparator)).tail)
        else [(u.dropWhile (· != cfg.tenantSeparator)).tail]).any
          List.isEmpty) = true := by
      rcases h4 with ⟨v, hv, hve⟩
      exact List.any_eq_true.mpr ⟨v, hv, List.isEmpty_iff.mpr hve⟩
    simp only [decideStartupUser, if_neg hne, if_neg hbp, hsplit,
      if_neg (not_or.mpr ⟨h1, h2⟩), h4', if_true]
    rw [if_neg (fun hx => hx h3)]

/-- **C2, witness for the amended theorem.**  Two configured context
variables and payload `L1:U7`: the suffix is split on `:` and mapped
positionally. -/
theorem C2_amended_witness :
    decideStartupUser ⟨46, 58, [ascii "app.list", ascii "app.user"],
        [ascii "postgres"]⟩ (some (ascii "app_user.L1:U7")) =
      .proceed (ascii "app_user") [ascii "L1", ascii "U7"] := by
  have h := (C2_amended ⟨46, 58, [ascii "app.list", ascii "app.user"],
      [ascii "postgres"]⟩ (ascii "app_user.L1:U7") (ascii "app_user")
      (ascii "L1:U7") [ascii "L1", ascii "U7"] (by decide) (by decide)
      (by decide) (by decide) (by decide)).1 (by decide) (by decide)
      (by decide) (by decide)
  exact h

-- ── C3: injection query text ───────────────────────────────────────────

lemma escapeLiteral_of_litOk (v : List Nat) (h : litOk v = true) :
    escapeLiteral v = .ok (39 :: v ++ [39]) := by
  have hq : doubleQuoteChar 39 v = v := by
    refine doubleQuoteChar_eq_self 39 v (fun b hb hbq => ?_)
    have := (List.all_eq_true.mp (Bool.and_elim_right h)) b hb
    rw [hbq] at this
    simp [isLitByte] at this
  simp [escapeLiteral, h, hq]

lemma quoteIdent_of_identOk (v : List Nat) (h : identOk v = true) :
    quoteIdent v = .ok (34 :: v ++ [34]) := by
  have hq : doubleQuoteChar 34 v = v := by
    refine doubleQuoteChar_eq_self 34 v (fun b hb hbq => ?_)
    have := (List.all_eq_true.mp (Bool.and_elim_right h)) b hb
    rw [hbq] at this
    simp [isIdentByte] at this
  simp [quoteIdent, h, hq]

lemma setClause_eq (cv x : List Nat) :
    ascii "SET " ++ cv ++ ascii " = " ++ (39 :: x ++ [39]) =
      ascii "SET " ++ cv ++ ascii " = '" ++ x ++ ascii "'" := by
  have h1 : ascii " = '" = ascii " = " ++ [39] := by decide
  have h2 : ascii "'" = [39] := by decide
  rw [h1, h2]
  simp

lemma roleClause_eq (r : List Nat) :
    ascii "SET ROLE " ++ (34 :: r ++ [34]) =
      ascii "SET ROLE \x22" ++ r ++ ascii "\x22" := by
  have h1 : ascii "SET ROLE \x22" = ascii "SET ROLE " ++ [34] := by decide
  have h2 : ascii "\x22" = [34] := by decide
  rw [h1, h2]
  simp

lemma buildSetClauses_ok (vars : List (List Nat)) :
    ∀ values : List (List Nat), values.length = vars.length →
      (∀ v ∈ values, litOk v = true) →
      buildSetClauses vars values =
        .ok (List.zipWith
              (fun cv v => ascii "SET " ++ cv ++ ascii " = '" ++ v ++ ascii "'")
              vars values) := by
  induction vars with
  | nil =>
      intro values _ _
      simp [buildSetClauses]
  | cons cv vs ih =>
      intro values hlen hv
      cases values with
      | nil => simp at hlen
      | cons x xs =>
          have hx : litOk x = true := hv x (by simp)
          have hxs : ∀ v ∈ xs, litOk v = true :=
            fun v hv' => hv v (by simp [hv'])
          have hlen' : xs.length = vs.length := by
            simpa using hlen
          simp only [buildSetClauses, escapeLiteral_of_litOk x hx,
            ih xs hlen' hxs, List.zipWith_cons_cons]
          rw [setClause_eq]

/-- **C3.**  For a tenant connection entering injection with effective
role `r` and context values bound to the configured variables, the proxy
emits exactly one output: a single simple-query (`'Q'`) message whose
SQL text is the configured `SET <var> = '<value>'` statements in
declaration order followed by `SET ROLE "<r>"`, joined by `"; "` and
terminated by `";"`. -/
theorem C3_injection (cfg : Config) (c : Conn) (role : List Nat)
    (hrole : c.actualUser = some role)
    (hlen : c.contextValues.length = cfg.contextVariables.length)
    (hv : ∀ v ∈ c.contextValues, litOk v = true)
    (hr : identOk role = true) :
    injectTenantContext cfg c =
      ({ c with state := .injecting },
       [.injectionWrite (buildQueryMessage
          (intercalateBytes (ascii "; ")
            (List.zipWith
              (fun cv v => ascii "SET " ++ cv ++ ascii " = '" ++ v ++ ascii "'")
              cfg.contextVariables c.contextValues ++
             [ascii "SET ROLE \x22" ++ role ++ ascii "\x22"]) ++
           ascii ";"))]) := by
  have hsql : injectionSqlText cfg.contextVariables c.contextValues
      (c.actualUser.getD []) =
      .ok (intercalateBytes (ascii "; ")
            (List.zipWith
              (fun cv v => ascii "SET " ++ cv ++ ascii " = '" ++ v ++ ascii "'")
              cfg.contextVariables c.contextValues ++
             [ascii "SET ROLE \x22" ++ role ++ ascii "\x22"]) ++
           ascii ";") := by
    rw [hrole]
    simp only [Option.getD_some, injectionSqlText,
      buildSetClauses_ok cfg.contextVariables c.contextValues hlen hv,
      quoteIdent_of_identOk role hr]
    rw [roleClause_eq]
  show (let c1 : Conn := { c with state := .injecting };
    match injectionSqlText cfg.contextVariables c1.contextValues
            (c1.actualUser.getD []) with
    | .ok sql => (c1, [Output.injectionWrite (buildQueryMessage sql)])
    | .error _ => cleanup c1) = _
  simp only [hsql]

/-- **C3, witness.**  The spec's happy-path example: one context
variable, value `acme`, role `app_user`. -/
theorem C3_injection_witness :
    injectTenantContext ⟨46, 58, [ascii "app.current_tenant_id"],
        [ascii "postgres"]⟩
      ⟨.postAuth, [], [], [ascii "acme"], some (ascii "app_user"), false,
        some [0x5a, 0, 0, 0, 5, 73], none⟩ =
      (⟨.injecting, [], [], [ascii "acme"], some (ascii "app_user"), false,
        some [0x5a, 0, 0, 0, 5, 73], none⟩,
       [.injectionWrite (buildQueryMessage
          (ascii "SET app.current_tenant_id = 'acme'; SET ROLE \x22app_user\x22;"))]) := by
  rw [C3_injection ⟨46, 58, [ascii "app.current_tenant_id"],
      [ascii "postgres"]⟩
    ⟨.postAuth, [], [], [ascii "acme"], some (ascii "app_user"), false,
      some [0x5a, 0, 0, 0, 5, 73], none⟩ (ascii "app_user") (by decide)
    (by decide) (by decide) (by decide)]
  decide

-- ── C4: startup rejections ─────────────────────────────────────────────

/-- Once the connection is `CLOSED`, events that can still physically
occur (client data, socket errors and closes — the upstream socket was
destroyed or never existed, so no server data or connect callback can
arrive) produce no output and leave the connection unchanged. -/
lemma run_closed_silent (cfg : Config) :
    ∀ (evs : List Event) (c : Conn), c.state = .closed →
      (∀ e ∈ evs, (∀ b, e ≠ .serverData b) ∧ e ≠ .upstreamConnected) →
      run cfg c evs = (c, []) := by
  intro evs
  induction evs with
  | nil =>
      intro c _ _
      rfl
  | cons e es ih =>
      intro c hc he
      have hstep : step cfg c e = (c, []) := by
        have hnh : ¬ c.state = .hung := by
          rw [hc]
          intro h
          cases h
        cases e with
        | clientData b =>
            simp [step, hc]
        | serverData b =>
            exact absurd rfl ((he _ (by simp)).1 b)
        | upstreamConnected =>
            exact absurd rfl (he _ (by simp)).2
        | socketError =>
            simp [step, hc, cleanup]
        | socketClosed =>
            simp [step, hc, cleanup]
      simp only [run, hstep]
      simp [ih c hc (fun e' he' => he e' (by simp [he']))]

/-- **C4.**  A startup message without a `user` parameter draws a single
FATAL `ErrorResponse` with SQLSTATE 08004 and the connection closes; a
user without the tenant separator that is not in the bypass list draws a
single FATAL `ErrorResponse` with SQLSTATE 28000 whose message mentions
the separator, and the connection closes.  In both cases no upstream
connection is opened (`connectUpstream` is not among the outputs) and no
further output is produced by any later event that can still occur. -/
theorem C4_rejection (cfg : Config) (c : Conn) (data msg rest : List Nat)
    (hstate : c.state = .waitStartup)
    (hframe : nextStartupMessage (c.clientBuf ++ data) = some (msg, rest))
    (hssl : isSSLRequest msg = false)
    (hcancel : isCancelRequest msg = false) :
    (getAssoc (parseStartupMessage msg) (ascii "user") = none →
      step cfg c (.clientData data) =
        ({ c with clientBuf := rest, state := .closed },
         [.clientWrite (buildErrorResponse (ascii "FATAL") (ascii "08004")
            (ascii "No username in StartupMessage") none),
          .clientEnd])) ∧
    (∀ u, getAssoc (parseStartupMessage msg) (ascii "user") = some u →
      u ≠ [] → u ∉ cfg.superuserBypass → cfg.tenantSeparator ∉ u →
      step cfg c (.clientData data) =
        ({ c with clientBuf := rest, state := .closed },
         [.clientWrite (buildErrorResponse (ascii "FATAL") (ascii "28000")
            (sepErrMsg cfg) (some (sepErrDetail cfg))),
          .clientEnd]) ∧
      cfg.tenantSeparator ∈ sepErrMsg cfg) ∧
    (∀ (evs : List Event) (c' : Conn), c'.state = .closed →
      (∀ e ∈ evs, (∀ b, e ≠ .serverData b) ∧ e ≠ .upstreamConnected) →
      run cfg c' evs = (c', [])) := by
  have hnh : ¬ c.state = .hung := by
    rw [hstate]
    intro h
    cases h
  refine ⟨fun huser => ?_, fun u huser hne hbp hsep => ⟨?_, ?_⟩,
    run_closed_silent cfg⟩
  · simp only [step, hstate, handleStartupData, hframe,
      if_neg (by simp [hssl] : ¬ isSSLRequest msg = true),
      if_neg (by simp [hcancel] : ¬ isCancelRequest msg = true),
      decideStartupUser, huser, sendErrorAndClose]
    simp
  · simp only [step, hstate, handleStartupData, hframe,
      if_neg (by simp [hssl] : ¬ isSSLRequest msg = true),
      if_neg (by simp [hcancel] : ¬ isCancelRequest msg = true),
      decideStartupUser, huser, if_neg hne, if_neg hbp,
      splitAtSep_eq_none_of cfg.tenantSeparator u hsep, sendErrorAndClose]
    simp
  · simp [sepErrMsg]

/-- **C4, witness.**  The spec's malformed-identity scenario:
`user=baduser` with the default configuration; the connection is
rejected with FATAL/28000, the message names the separator, and a later
client chunk produces nothing. -/
theorem C4_rejection_witness :
    step ⟨46, 58, [ascii "app.current_tenant_id"], [ascii "postgres"]⟩
        initConn (.clientData (buildStartupMessage
          [(ascii "user", ascii "baduser"), (ascii "database", ascii "db")])) =
      ({ initConn with clientBuf := [], state := .closed },
       [.clientWrite (buildErrorResponse (ascii "FATAL") (ascii "28000")
          (sepErrMsg ⟨46, 58, [ascii "app.current_tenant_id"],
            [ascii "postgres"]⟩)
          (some (sepErrDetail ⟨46, 58, [ascii "app.current_tenant_id"],
            [ascii "postgres"]⟩))),
        .clientEnd]) ∧
    run ⟨46, 58, [ascii "app.current_tenant_id"], [ascii "postgres"]⟩
        ({ initConn with clientBuf := [], state := .closed })
        [.clientData [81, 0, 0, 0, 5, 0], .socketError] =
      ({ initConn with clientBuf := [], state := .closed }, []) := by
  have h := C4_rejection ⟨46, 58, [ascii "app.current_tenant_id"],
      [ascii "postgres"]⟩ initConn (buildStartupMessage
        [(ascii "user", ascii "baduser"), (ascii "database", ascii "db")])
      (buildStartupMessage
        [(ascii "user", ascii "baduser"), (ascii "database", ascii "db")]) []
      (by decide) (by decide) (by decide) (by decide)
  refine ⟨(h.2.1 (ascii "baduser") (by decide) (by decide) (by decide)
      (by decide)).1, ?_⟩
  refine h.2.2 [.clientData [81, 0, 0, 0, 5, 0], .socketError] _ rfl ?_
  intro e he
  rcases List.mem_cons.mp he with h1 | h1
  · subst h1
    exact ⟨fun b hb => (nomatch hb), fun hb => (nomatch hb)⟩
  · rcases List.mem_singleton.mp h1 with rfl
    exact ⟨fun b hb => (nomatch hb), fun hb => (nomatch hb)⟩

-- ── Machine lemmas shared by C5 and C10 ────────────────────────────────

/-- Number of `destroySockets` outputs (executions of the
socket-destroying body of `cleanup`). -/
def countDestroy : List Output → Nat
  | [] => 0
  | o :: os => (if o = .destroySockets then 1 else 0) + countDestroy os

lemma countDestroy_append (a b : List Output) :
    countDestroy (a ++ b) = countDestroy a + countDestroy b := by
  induction a with
  | nil => simp [countDestroy]
  | cons o os ih => simp [countDestroy, ih, Nat.add_assoc]

lemma cleanup_conn (c : Conn) :
    (cleanup c).1 = { c with state := .closed } := by
  unfold cleanup
  split_ifs with h
  · cases c
    simp_all
  · rfl

lemma cleanup_out (c : Conn) :
    (cleanup c).2 = if c.state = .closed then [] else [.destroySockets] := by
  unfold cleanup
  split_ifs <;> rfl

lemma enterTransparent_conn (c : Conn) :
    (enterTransparent c).1 =
      { c with state := .transparent, serverBuf := [] } := by
  unfold enterTransparent
  dsimp only
  split_ifs with h
  · cases c
    simp_all
  · rfl

lemma enterTransparent_out (c : Conn) :
    (enterTransparent c).2 =
      if c.serverBuf = [] then [] else [.clientWrite c.serverBuf] := by
  unfold enterTransparent
  dsimp only
  split_ifs <;> rfl

lemma injectionLoopGo_spec (c : Conn) :
    ∀ (fuel : Nat) (buf : List Nat),
      (injectionLoopGo fuel c buf).1.isBypass = c.isBypass ∧
      ((injectionLoopGo fuel c buf).1.state = c.state ∨
        (injectionLoopGo fuel c buf).1.state = .transparent ∨
        (injectionLoopGo fuel c buf).1.state = .closed ∨
        (injectionLoopGo fuel c buf).1.state = .hung) ∧
      (∀ q, Output.injectionWrite q ∉ (injectionLoopGo fuel c buf).2) ∧
      countDestroy (injectionLoopGo fuel c buf).2 ≤ 1 ∧
      ((injectionLoopGo fuel c buf).1.state ≠ .closed →
        countDestroy (injectionLoopGo fuel c buf).2 = 0) := by
  intro fuel
  induction fuel with
  | zero =>
      intro buf
      simp [injectionLoopGo, countDestroy]
  | succ fuel ih =>
      intro buf
      cases hm : nextBackendMessage buf with
      | none => simp [injectionLoopGo, hm, countDestroy]
      | some p =>
          obtain ⟨msg, rest⟩ := p
          by_cases hlt : rest.length < buf.length
          · by_cases herr : isErrorResponse msg = true
            · by_cases hcl : c.state = .closed <;>
                simp [injectionLoopGo, hm, hlt, herr, hcl, cleanup_conn,
                  cleanup_out, countDestroy]
            · by_cases hrfq : isReadyForQuery msg = true
              · have hpos : 0 < buf.length := by omega
                cases hbr : c.bufferedReadyForQuery <;>
                  by_cases hcb : c.clientBuf = [] <;>
                  by_cases hre : rest = [] <;>
                  simp [injectionLoopGo, hm, hlt, herr, hrfq, hbr, hcb, hre,
                    hpos, enterTransparent_conn, enterTransparent_out,
                    countDestroy]
              · obtain ⟨ih1, ih2, ih3, ih4, ih5⟩ := ih rest
                have hconn : (injectionLoopGo (fuel + 1) c buf).1 =
                    (injectionLoopGo fuel c rest).1 := by
                  simp [injectionLoopGo, hm, hlt, herr, hrfq]
                have hout : (injectionLoopGo (fuel + 1) c buf).2 =
                    .obsServerFrame msg.type ::
                      ((if msg.type = 0x53 then [Output.clientWrite msg.raw]
                        else []) ++ (injectionLoopGo fuel c rest).2) := by
                  simp [injectionLoopGo, hm, hlt, herr, hrfq]
                rw [hconn, hout]
                refine ⟨ih1, ih2, ?_, ?_, ?_⟩
                · intro q
                  by_cases hps : msg.type = 0x53 <;>
                    simp [hps, ih3 q]
                · by_cases hps : msg.type = 0x53 <;>
                    simp [hps, countDestroy, countDestroy_append] <;>
                    omega
                · intro h
                  by_cases hps : msg.type = 0x53 <;>
                    simp [hps, countDestroy, countDestroy_append] <;>
                    exact ih5 h
          · simp [injectionLoopGo, hm, hlt, countDestroy]

lemma injectTenantContext_spec (cfg : Config) (c : Conn) :
    (injectTenantContext cfg c).1.isBypass = c.isBypass ∧
    ((injectTenantContext cfg c).1.state = .injecting ∨
      (injectTenantContext cfg c).1.state = .closed) ∧
    countDestroy (injectTenantContext cfg c).2 ≤ 1 ∧
    ((injectTenantContext cfg c).1.state ≠ .closed →
      countDestroy (injectTenantContext cfg c).2 = 0) := by
  unfold injectTenantContext
  cases h : injectionSqlText cfg.contextVariables c.contextValues
      (c.actualUser.getD []) with
  | ok sql => simp [h, countDestroy]
  | error e => simp [h, cleanup_conn, cleanup_out, countDestroy]

lemma postAuthLoopGo_spec (cfg : Config) (c : Conn) :
    ∀ (fuel : Nat) (buf : List Nat),
      (postAuthLoopGo cfg fuel c buf).1.isBypass = c.isBypass ∧
      ((postAuthLoopGo cfg fuel c buf).1.state = c.state ∨
        (postAuthLoopGo cfg fuel c buf).1.state = .injecting ∨
        (postAuthLoopGo cfg fuel c buf).1.state = .closed ∨
        (postAuthLoopGo cfg fuel c buf).1.state = .hung) ∧
      countDestroy (postAuthLoopGo cfg fuel c buf).2 ≤ 1 ∧
      ((postAuthLoopGo cfg fuel c buf).1.state ≠ .closed →
        countDestroy (postAuthLoopGo cfg fuel c buf).2 = 0) := by
  intro fuel
  induction fuel with
  | zero =>
      intro buf
      simp [postAuthLoopGo, countDestroy]
  | succ fuel ih =>
      intro buf
      cases hm : nextBackendMessage buf with
      | none => simp [postAuthLoopGo, hm, countDestroy]
      | some p =>
          obtain ⟨msg, rest⟩ := p
          by_cases hlt : rest.length < buf.length
          · by_cases hrfq : isReadyForQuery msg = true
            · have hconn : (postAuthLoopGo cfg (fuel + 1) c buf).1 =
                  (injectTenantContext cfg
                    { c with bufferedReadyForQuery := some msg.raw,
                             serverBuf := rest }).1 := by
                simp [postAuthLoopGo, hm, hlt, hrfq]
              have hout : (postAuthLoopGo cfg (fuel + 1) c buf).2 =
                  .obsServerFrame msg.type ::
                    (injectTenantContext cfg
                      { c with bufferedReadyForQuery := some msg.raw,
                               serverBuf := rest }).2 := by
                simp [postAuthLoopGo, hm, hlt, hrfq]
              obtain ⟨j1, j2, j3, j4⟩ := injectTenantContext_spec cfg
                { c with bufferedReadyForQuery := some msg.raw,
                         serverBuf := rest }
              rw [hconn, hout]
              refine ⟨j1, ?_, ?_, ?_⟩
              · rcases j2 with h | h <;> simp [h]
              · simpa [countDestroy] using j3
              · intro h
                simpa [countDestroy] using j4 h
            · obtain ⟨ih1, ih2, ih3, ih4⟩ := ih rest
              have hconn : (postAuthLoopGo cfg (fuel + 1) c buf).1 =
                  (postAuthLoopGo cfg fuel c rest).1 := by
                simp [postAuthLoopGo, hm, hlt, hrfq]
              have hout : (postAuthLoopGo cfg (fuel + 1) c buf).2 =
                  .obsServerFrame msg.type :: .clientWrite msg.raw ::
                    (postAuthLoopGo cfg fuel c rest).2 := by
                simp [postAuthLoopGo, hm, hlt, hrfq]
              rw [hconn, hout]
              refine ⟨ih1, ih2, ?_, ?_⟩
              · simpa [countDestroy] using ih3
              · intro h
                simpa [countDestroy] using ih4 h
          · simp [postAuthLoopGo, hm, hlt, countDestroy]

lemma authLoopGo_spec (cfg : Config) (c : Conn) :
    ∀ (fuel : Nat) (buf : List Nat),
      (authLoopGo cfg fuel c buf).1.isBypass = c.isBypass ∧
      ((authLoopGo cfg fuel c buf).1.state = c.state ∨
        (authLoopGo cfg fuel c buf).1.state = .postAuth ∨
        (authLoopGo cfg fuel c buf).1.state = .injecting ∨
        (authLoopGo cfg fuel c buf).1.state = .closed ∨
        (authLoopGo cfg fuel c buf).1.state = .hung) ∧
      countDestroy (authLoopGo cfg fuel c buf).2 ≤ 1 ∧
      ((authLoopGo cfg fuel c buf).1.state ≠ .closed →
        countDestroy (authLoopGo cfg fuel c buf).2 = 0) := by
  intro fuel
  induction fuel with
  | zero =>
      intro buf
      simp [authLoopGo, countDestroy]
  | succ fuel ih =>
      intro buf
      cases hm : nextBackendMessage buf with
      | none => simp [authLoopGo, hm, countDestroy]
      | some p =>
          obtain ⟨msg, rest⟩ := p
          by_cases hlt : rest.length < buf.length
          · by_cases hok : isAuthOk msg = true
            · have hpos : 0 < buf.length := by omega
              by_cases hre : rest = []
              · simp [authLoopGo, hm, hlt, hok, hre, hpos, countDestroy]
              · have hconn : (authLoopGo cfg (fuel + 1) c buf).1 =
                    (handlePostAuthLoop cfg
                      { c with state := .postAuth, serverBuf := [] } rest).1 := by
                  simp [authLoopGo, hm, hlt, hok, hre]
                have hout : (authLoopGo cfg (fuel + 1) c buf).2 =
                    .obsServerFrame msg.type :: .clientWrite msg.raw ::
                      (handlePostAuthLoop cfg
                        { c with state := .postAuth, serverBuf := [] } rest).2 := by
                  simp [authLoopGo, hm, hlt, hok, hre]
                obtain ⟨j1, j2, j3, j4⟩ := postAuthLoopGo_spec cfg
                  { c with state := .postAuth, serverBuf := [] }
                  (rest.length + 1) rest
                rw [hconn, hout]
                refine ⟨j1, ?_, ?_, ?_⟩
                · unfold handlePostAuthLoop
                  rcases j2 with h | h | h | h <;> simp [h]
                · unfold handlePostAuthLoop
                  simpa [countDestroy] using j3
                · intro h
                  unfold handlePostAuthLoop at h ⊢
                  simpa [countDestroy] using j4 h
            · obtain ⟨ih1, ih2, ih3, ih4⟩ := ih rest
              have hconn : (authLoopGo cfg (fuel + 1) c buf).1 =
                  (authLoopGo cfg fuel c rest).1 := by
                simp [authLoopGo, hm, hlt, hok]
              have hout : (authLoopGo cfg (fuel + 1) c buf).2 =
                  .obsServerFrame msg.type :: .clientWrite msg.raw ::
                    (authLoopGo cfg fuel c rest).2 := by
                simp [authLoopGo, hm, hlt, hok]
              rw [hconn, hout]
              refine ⟨ih1, ih2, ?_, ?_⟩
              · simpa [countDestroy] using ih3
              · intro h
                simpa [countDestroy] using ih4 h
          · simp [authLoopGo, hm, hlt, countDestroy]

lemma handleStartupData_spec (cfg : Config) (c : Conn) (b : List Nat) :
    (c.isBypass = true → (handleStartupData cfg c b).1.isBypass = true) ∧
    ((handleStartupData cfg c b).1.state = c.state ∨
      (handleStartupData cfg c b).1.state = .closed ∨
      (handleStartupData cfg c b).1.state = .connecting) ∧
    (∀ q, Output.injectionWrite q ∉ (handleStartupData cfg c b).2) ∧
    countDestroy (handleStartupData cfg c b).2 = 0 := by
  unfold handleStartupData
  cases hm : nextStartupMessage (c.clientBuf ++ b) with
  | none => simp [hm, countDestroy]
  | some p =>
      obtain ⟨msg, rest⟩ := p
      by_cases hssl : isSSLRequest msg = true
      · simp [hm, hssl, countDestroy]
      · by_cases hcan : isCancelRequest msg = true
        · simp [hm, hssl, hcan, countDestroy]
        · cases hd : decideStartupUser cfg
            (getAssoc (parseStartupMessage msg) (ascii "user")) with
          | reject st m d =>
              simp [hm, hssl, hcan, hd, sendErrorAndClose, countDestroy]
          | bypass => simp [hm, hssl, hcan, hd, countDestroy]
          | proceed role values => simp [hm, hssl, hcan, hd, countDestroy]

lemma handleUpstreamConnected_spec (c : Conn) :
    (handleUpstreamConnected c).1.isBypass = c.isBypass ∧
    ((handleUpstreamConnected c).1.state = c.state ∨
      (handleUpstreamConnected c).1.state = .transparent ∨
      (handleUpstreamConnected c).1.state = .authenticating) ∧
    (c.isBypass = true → (handleUpstreamConnected c).1.state = c.state ∨
      (handleUpstreamConnected c).1.state = .transparent) ∧
    (∀ q, Output.injectionWrite q ∉ (handleUpstreamConnected c).2) ∧
    countDestroy (handleUpstreamConnected c).2 = 0 := by
  unfold handleUpstreamConnected
  cases hp : c.pendingStartup with
  | none => simp [countDestroy]
  | some s =>
      by_cases hb : c.isBypass = true
      · by_cases hcb : c.clientBuf = [] <;>
          by_cases hsv : c.serverBuf = [] <;>
          simp [hb, hcb, hsv, enterTransparent_conn, enterTransparent_out,
            countDestroy, countDestroy_append]
      · by_cases hcb : c.clientBuf = [] <;>
          simp [hb, hcb, countDestroy]

lemma step_bypass (cfg : Config) (c : Conn) (e : Event)
    (hb : c.isBypass = true) (h1 : c.state ≠ .authenticating)
    (h2 : c.state ≠ .postAuth) :
    (step cfg c e).1.isBypass = true ∧
    (step cfg c e).1.state ≠ .authenticating ∧
    (step cfg c e).1.state ≠ .postAuth ∧
    ∀ q, Output.injectionWrite q ∉ (step cfg c e).2 := by
  by_cases hh : c.state = .hung
  · simp [step, hh, hb]
  · cases e with
    | clientData b =>
        cases hs : c.state with
        | waitStartup =>
            obtain ⟨s1, s2, s3, _⟩ := handleStartupData_spec cfg c b
            have heq : step cfg c (.clientData b) =
                handleStartupData cfg c b := by
              simp [step, hh, hs]
            rw [heq]
            refine ⟨s1 hb, ?_, ?_, s3⟩ <;>
              rcases s2 with h | h | h <;> simp [h, hs]
        | authenticating => exact absurd hs h1
        | postAuth => exact absurd hs h2
        | hung => exact absurd hs hh
        | connecting =>
            have heq : step cfg c (.clientData b) = (c, []) := by
              simp [step, hh, hs]
            rw [heq]
            simp [hb, hs]
        | injecting =>
            have heq : step cfg c (.clientData b) =
                ({ c with clientBuf := c.clientBuf ++ b }, []) := by
              simp [step, hh, hs]
            rw [heq]
            simp [hb, hs]
        | transparent =>
            have heq : step cfg c (.clientData b) = (c, [.serverWrite b]) := by
              simp [step, hh, hs]
            rw [heq]
            simp [hb, hs]
        | closed =>
            have heq : step cfg c (.clientData b) = (c, []) := by
              simp [step, hh, hs]
            rw [heq]
            simp [hb, hs]
    | serverData b =>
        cases hs : c.state with
        | authenticating => exact absurd hs h1
        | postAuth => exact absurd hs h2
        | hung => exact absurd hs hh
        | transparent =>
            have heq : step cfg c (.serverData b) = (c, [.clientWrite b]) := by
              simp [step, hh, hs]
            rw [heq]
            simp [hb, hs]
        | injecting =>
            obtain ⟨s1, s2, s3, _, _⟩ :=
              injectionLoopGo_spec c ((c.serverBuf ++ b).length + 1)
                (c.serverBuf ++ b)
            have heq : step cfg c (.serverData b) =
                handleInjectionLoop c (c.serverBuf ++ b) := by
              simp [step, hh, hs]
            rw [heq]
            unfold handleInjectionLoop
            refine ⟨by rw [s1, hb], ?_, ?_, s3⟩ <;>
              rcases s2 with h | h | h | h <;> rw [h] <;> simp [hs]
        | waitStartup =>
            have heq : step cfg c (.serverData b) = (c, [.clientWrite b]) := by
              simp [step, hh, hs]
            rw [heq]
            simp [hb, hs]
        | connecting =>
            have heq : step cfg c (.serverData b) = (c, [.clientWrite b]) := by
              simp [step, hh, hs]
            rw [heq]
            simp [hb, hs]
        | closed =>
            have heq : step cfg c (.serverData b) = (c, [.clientWrite b]) := by
              simp [step, hh, hs]
            rw [heq]
            simp [hb, hs]
    | upstreamConnected =>
        obtain ⟨u1, _, u3, u4, _⟩ := handleUpstreamConnected_spec c
        have heq : step cfg c .upstreamConnected =
            handleUpstreamConnected c := by
          simp [step, hh]
        rw [heq]
        refine ⟨by rw [u1, hb], ?_, ?_, u4⟩
        · rcases u3 hb with h | h <;> rw [h]
          · exact h1
          · simp
        · rcases u3 hb with h | h <;> rw [h]
          · exact h2
          · simp
    | socketError =>
        have heq : step cfg c .socketError = cleanup c := by
          simp [step, hh]
        rw [heq, cleanup_out]
        refine ⟨by rw [cleanup_conn]; exact hb, ?_, ?_, ?_⟩
        · rw [cleanup_conn]
          simp
        · rw [cleanup_conn]
          simp
        · intro q
          split_ifs <;> simp
    | socketClosed =>
        have heq : step cfg c .socketClosed = cleanup c := by
          simp [step, hh]
        rw [heq, cleanup_out]
        refine ⟨by rw [cleanup_conn]; exact hb, ?_, ?_, ?_⟩
        · rw [cleanup_conn]
          simp
        · rw [cleanup_conn]
          simp
        · intro q
          split_ifs <;> simp

/-- In a bypass connection (once `isBypass` is set, in any state other
than the tenant-only `AUTHENTICATING` / `POST_AUTH` phases) no event
sequence can ever make the proxy send a context-injection `Query`. -/
lemma run_bypass (cfg : Config) :
    ∀ (evs : List Event) (c : Conn), c.isBypass = true →
      c.state ≠ .authenticating → c.state ≠ .postAuth →
      ∀ q, Output.injectionWrite q ∉ (run cfg c evs).2 := by
  intro evs
  induction evs with
  | nil =>
      intro c _ _ _ q
      simp [run]
  | cons e es ih =>
      intro c hb h1 h2 q
      obtain ⟨s1, s2, s3, s4⟩ := step_bypass cfg c e hb h1 h2
      simp only [run, List.mem_append]
      intro hmem
      rcases hmem with hmem | hmem
      · exact s4 q hmem
      · exact ih (step cfg c e).1 s1 s2 s3 q hmem

lemma step_destroy (cfg : Config) (c : Conn) (e : Event) :
    countDestroy (step cfg c e).2 ≤ 1 ∧
    ((step cfg c e).1.state ≠ .closed →
      countDestroy (step cfg c e).2 = 0) := by
  by_cases hh : c.state = .hung
  · simp [step, hh, countDestroy]
  · cases e with
    | clientData b =>
        cases hs : c.state <;>
          simp only [step, hh, hs, if_false, if_neg, Bool.false_eq_true] <;>
          try simp [step, hh, hs, countDestroy]
        · obtain ⟨_, _, _, s4⟩ := handleStartupData_spec cfg c b
          exact ⟨by omega, fun _ => s4⟩
    | serverData b =>
        cases hs : c.state with
        | authenticating =>
            obtain ⟨_, _, j3, j4⟩ := authLoopGo_spec cfg c
              ((c.serverBuf ++ b).length + 1) (c.serverBuf ++ b)
            have heq : step cfg c (.serverData b) =
                handleAuthLoop cfg c (c.serverBuf ++ b) := by
              simp [step, hh, hs]
            rw [heq]
            unfold handleAuthLoop
            exact ⟨j3, j4⟩
        | postAuth =>
            obtain ⟨_, _, j3, j4⟩ := postAuthLoopGo_spec cfg c
              ((c.serverBuf ++ b).length + 1) (c.serverBuf ++ b)
            have heq : step cfg c (.serverData b) =
                handlePostAuthLoop cfg c (c.serverBuf ++ b) := by
              simp [step, hh, hs]
            rw [heq]
            unfold handlePostAuthLoop
            exact ⟨j3, j4⟩
        | injecting =>
            obtain ⟨_, _, _, j3, j4⟩ := injectionLoopGo_spec c
              ((c.serverBuf ++ b).length + 1) (c.serverBuf ++ b)
            have heq : step cfg c (.serverData b) =
                handleInjectionLoop c (c.serverBuf ++ b) := by
              simp [step, hh, hs]
            rw [heq]
            unfold handleInjectionLoop
            exact ⟨j3, j4⟩
        | _ => simp [step, hh, hs, countDestroy]
    | upstreamConnected =>
        obtain ⟨_, _, _, _, u5⟩ := handleUpstreamConnected_spec c
        have heq : step cfg c .upstreamConnected =
            handleUpstreamConnected c := by
          simp [step, hh]
        rw [heq]
        exact ⟨by omega, fun _ => u5⟩
    | socketError =>
        have heq : step cfg c .socketError = cleanup c := by
          simp [step, hh]
        rw [heq, cleanup_out]
        constructor
        · split_ifs <;> simp [countDestroy]
        · rw [cleanup_conn]
          intro h
          simp at h
    | socketClosed =>
        have heq : step cfg c .socketClosed = cleanup c := by
          simp [step, hh]
        rw [heq, cleanup_out]
        constructor
        · split_ifs <;> simp [countDestroy]
        · rw [cleanup_conn]
          intro h
          simp at h

lemma step_closed (cfg : Config) (c : Conn) (e : Event)
    (hc : c.state = .closed) (hne : e ≠ .upstreamConnected) :
    (step cfg c e).1.state = .closed ∧
    countDestroy (step cfg c e).2 = 0 := by
  have hh : ¬ c.state = .hung := by
    rw [hc]
    intro h
    cases h
  cases e with
  | clientData b => simp [step, hh, hc, countDestroy]
  | serverData b => simp [step, hh, hc, countDestroy]
  | upstreamConnected => exact absurd rfl hne
  | socketError => simp [step, hh, cleanup, hc, countDestroy]
  | socketClosed => simp [step, hh, cleanup, hc, countDestroy]

/-- Event-placement condition used for the destroy-at-most-once
invariant: an upstream `connect` callback can only fire while the
connection is `CONNECTING` (the callback is registered by
`connectUpstream`, which is what moved the machine into that state, and
fires once). -/
def connectsOkB (cfg : Config) : Conn → List Event → Bool
  | _, [] => true
  | c, e :: es =>
      (if e = Event.upstreamConnected then c.state == ConnState.connecting
       else true) && connectsOkB cfg (step cfg c e).1 es

lemma run_destroy (cfg : Config) :
    ∀ (evs : List Event) (c : Conn), connectsOkB cfg c evs = true →
      (c.state = .closed → (run cfg c evs).1.state = .closed ∧
        countDestroy (run cfg c evs).2 = 0) ∧
      (c.state ≠ .closed → countDestroy (run cfg c evs).2 ≤ 1 ∧
        ((run cfg c evs).1.state ≠ .closed →
          countDestroy (run cfg c evs).2 = 0)) := by
  intro evs
  induction evs with
  | nil =>
      intro c _
      simp [run, countDestroy]
  | cons e es ih =>
      intro c hok
      rw [connectsOkB, Bool.and_eq_true] at hok
      obtain ⟨hcond, hrest⟩ := hok
      have hrun : run cfg c (e :: es) =
          ((run cfg (step cfg c e).1 es).1,
            (step cfg c e).2 ++ (run cfg (step cfg c e).1 es).2) := rfl
      rw [hrun]
      constructor
      · intro hc
        have hne : e ≠ .upstreamConnected := by
          intro hE
          rw [hE, if_pos rfl, hc] at hcond
          simp at hcond
        obtain ⟨st1, st2⟩ := step_closed cfg c e hc hne
        obtain ⟨go, _⟩ := ih (step cfg c e).1 hrest
        obtain ⟨go1, go2⟩ := go st1
        exact ⟨go1, by simp [countDestroy_append, st2, go2]⟩
      · intro hc
        obtain ⟨sd1, sd2⟩ := step_destroy cfg c e
        by_cases h1 : (step cfg c e).1.state = .closed
        · obtain ⟨go, _⟩ := ih (step cfg c e).1 hrest
          obtain ⟨go1, go2⟩ := go h1
          constructor
          · simp [countDestroy_append, go2]
            omega
          · intro hfin
            exact absurd go1 hfin
        · obtain ⟨_, go⟩ := ih (step cfg c e).1 hrest
          obtain ⟨go1, go2⟩ := go h1
          constructor
          · simp [countDestroy_append, sd2 h1]
            omega
          · intro hfin
            simp [countDestroy_append, sd2 h1, go2 hfin]

lemma notMem_of_countDestroy_zero (os : List Output)
    (h : countDestroy os = 0) : Output.destroySockets ∉ os := by
  induction os with
  | nil => simp
  | cons o os ih =>
      rw [countDestroy] at h
      by_cases ho : o = .destroySockets
      · rw [if_pos ho] at h
        omega
      · rw [if_neg ho, Nat.zero_add] at h
        simp only [List.mem_cons]
        intro hmem
        rcases hmem with hmem | hmem
        · exact ho hmem.symm
        · exact ih h hmem

-- ── C5: superuser bypass ───────────────────────────────────────────────

/-- **C5.**  A startup whose raw user is in the bypass list: the proxy
marks the connection as bypass and opens the upstream; when the upstream
connects, the original startup frame is forwarded byte-for-byte
(followed only by any already-buffered client bytes) and the connection
goes straight to `TRANSPARENT`; no continuation of the connection can
ever emit a context-injection `Query`; and in `TRANSPARENT` both
directions are relayed unmodified. -/
theorem C5_bypass (cfg : Config) (c : Conn) (data msg rest u : List Nat)
    (hstate : c.state = .waitStartup)
    (hsrv : c.serverBuf = [])
    (hframe : nextStartupMessage (c.clientBuf ++ data) = some (msg, rest))
    (hssl : isSSLRequest msg = false)
    (hcancel : isCancelRequest msg = false)
    (huser : getAssoc (parseStartupMessage msg) (ascii "user") = some u)
    (hne : u ≠ [])
    (hbp : u ∈ cfg.superuserBypass) :
    step cfg c (.clientData data) =
      ({ c with clientBuf := rest, isBypass := true, state := .connecting,
                pendingStartup := some msg }, [.connectUpstream]) ∧
    step cfg { c with clientBuf := rest, isBypass := true,
                      state := .connecting, pendingStartup := some msg }
        .upstreamConnected =
      ({ c with clientBuf := [], isBypass := true, state := .transparent,
                pendingStartup := some msg },
       .serverWrite msg :: (if rest = [] then [] else [.serverWrite rest])) ∧
    (∀ (evs : List Event) (q : List Nat),
      Output.injectionWrite q ∉
        (run cfg { c with clientBuf := rest, isBypass := true,
                          state := .connecting, pendingStartup := some msg }
          evs).2) ∧
    (∀ (c2 : Conn) (b : List Nat), c2.state = .transparent →
      step cfg c2 (.clientData b) = (c2, [.serverWrite b]) ∧
      step cfg c2 (.serverData b) = (c2, [.clientWrite b])) := by
  have hnh : ¬ c.state = .hung := by
    rw [hstate]
    intro h
    cases h
  refine ⟨?_, ?_, ?_, ?_⟩
  · simp only [step, hstate, handleStartupData, hframe,
      if_neg (by simp [hssl] : ¬ isSSLRequest msg = true),
      if_neg (by simp [hcancel] : ¬ isCancelRequest msg = true),
      decideStartupUser, huser, if_neg hne, if_pos hbp]
    simp
  · by_cases hre : rest = [] <;>
      simp [step, handleUpstreamConnected, hre, enterTransparent_conn,
        enterTransparent_out, hsrv]
  · intro evs q
    refine run_bypass cfg evs _ rfl ?_ ?_ q
    · intro h
      cases h
    · intro h
      cases h
  · intro c2 b h2
    have hnh2 : ¬ c2.state = .hung := by
      rw [h2]
      intro h
      cases h
    constructor <;> simp [step, h2]

/-- **C5, witness.**  The spec's bypass scenario: `user=postgres` with
bypass list `["postgres"]`; the startup frame is forwarded verbatim on
connect, and a continuation carrying server traffic never produces an
injection write. -/
theorem C5_bypass_witness :
    step ⟨46, 58, [ascii "app.current_tenant_id"], [ascii "postgres"]⟩
        initConn (.clientData (buildStartupMessage
          [(ascii "user", ascii "postgres"), (ascii "database", ascii "db")])) =
      (⟨.connecting, [], [], [], none, true, none,
        some (buildStartupMessage
          [(ascii "user", ascii "postgres"), (ascii "database", ascii "db")])⟩,
       [.connectUpstream]) ∧
    step ⟨46, 58, [ascii "app.current_tenant_id"], [ascii "postgres"]⟩
        ⟨.connecting, [], [], [], none, true, none,
          some (buildStartupMessage
            [(ascii "user", ascii "postgres"), (ascii "database", ascii "db")])⟩
        .upstreamConnected =
      (⟨.transparent, [], [], [], none, true, none,
        some (buildStartupMessage
          [(ascii "user", ascii "postgres"), (ascii "database", ascii "db")])⟩,
       [.serverWrite (buildStartupMessage
          [(ascii "user", ascii "postgres"), (ascii "database", ascii "db")])]) ∧
    Output.injectionWrite (buildQueryMessage (ascii "SET ROLE \x22x\x22;")) ∉
      (run ⟨46, 58, [ascii "app.current_tenant_id"], [ascii "postgres"]⟩
        ⟨.connecting, [], [], [], none, true, none,
          some (buildStartupMessage
            [(ascii "user", ascii "postgres"), (ascii "database", ascii "db")])⟩
        [.upstreamConnected,
         .serverData (0x52 :: int32BE 8 ++ int32BE 0),
         .serverData (0x5a :: int32BE 5 ++ [73])]).2 := by
  have h := C5_bypass ⟨46, 58, [ascii "app.current_tenant_id"],
      [ascii "postgres"]⟩ initConn
    (buildStartupMessage
      [(ascii "user", ascii "postgres"), (ascii "database", ascii "db")])
    (buildStartupMessage
      [(ascii "user", ascii "postgres"), (ascii "database", ascii "db")])
    [] (ascii "postgres") rfl rfl (by decide) (by decide) (by decide)
    (by decide) (by decide) (by decide)
  refine ⟨h.1, ?_, ?_⟩
  · have h2 := h.2.1
    simpa using h2
  · exact h.2.2.1 [.upstreamConnected,
      .serverData (0x52 :: int32BE 8 ++ int32BE 0),
      .serverData (0x5a :: int32BE 5 ++ [73])]
      (buildQueryMessage (ascii "SET ROLE \x22x\x22;"))

-- ── C10: CLOSED is absorbing ───────────────────────────────────────────

/-- **C10.**  Once a connection's state is `CLOSED`, no client-data,
server-data, or error/close event moves it to another state or runs the
socket-destroying body of `cleanup`; and over any whole run of the
machine (with the physical constraint that the upstream `connect`
callback only fires while `CONNECTING`), the socket-destroying body of
`cleanup` executes at most once. -/
theorem C10_closed_absorbing (cfg : Config) :
    (∀ (c : Conn) (e : Event), c.state = .closed →
      ((∃ b, e = .clientData b) ∨ (∃ b, e = .serverData b) ∨
        e = .socketError ∨ e = .socketClosed) →
      (step cfg c e).1.state = .closed ∧
      Output.destroySockets ∉ (step cfg c e).2) ∧
    (∀ evs : List Event, connectsOkB cfg initConn evs = true →
      countDestroy (run cfg initConn evs).2 ≤ 1) := by
  constructor
  · intro c e hc hshape
    have hne : e ≠ .upstreamConnected := by
      rcases hshape with ⟨b, rfl⟩ | ⟨b, rfl⟩ | rfl | rfl <;>
        intro h <;> cases h
    obtain ⟨h1, h2⟩ := step_closed cfg c e hc hne
    exact ⟨h1, notMem_of_countDestroy_zero _ h2⟩
  · intro evs hok
    have hi : initConn.state ≠ .closed := by
      intro h
      cases h
    exact ((run_destroy cfg evs initConn hok).2 hi).1

/-- **C10, witness.**  A connection closed by a malformed username stays
closed through further client data and a socket error, and a concrete
full run (rejection, then error event) destroys the sockets at most
once. -/
theorem C10_closed_absorbing_witness :
    ((step ⟨46, 58, [ascii "app.current_tenant_id"], [ascii "postgres"]⟩
        ⟨.closed, [], [], [], none, false, none, none⟩
        (.clientData [1, 2, 3])).1.state = .closed ∧
      Output.destroySockets ∉
        (step ⟨46, 58, [ascii "app.current_tenant_id"], [ascii "postgres"]⟩
          ⟨.closed, [], [], [], none, false, none, none⟩
          (.clientData [1, 2, 3])).2) ∧
    countDestroy (run ⟨46, 58, [ascii "app.current_tenant_id"],
        [ascii "postgres"]⟩ initConn
      [.clientData (buildStartupMessage [(ascii "user", ascii "baduser")]),
       .socketError, .socketClosed]).2 ≤ 1 := by
  refine ⟨(C10_closed_absorbing _).1 _ _ rfl (Or.inl ⟨[1, 2, 3], rfl⟩), ?_⟩
  exact (C10_closed_absorbing _).2 _ (by decide)

-- ── C6: startup codec round trip ───────────────────────────────────────

lemma findIdx0_append (t : List Nat) :
    ∀ (k : List Nat) (i : Nat), (∀ b ∈ k, b ≠ 0) →
      List.findIdx? (· == 0) (k ++ 0 :: t) i = some (i + k.length) := by
  intro k
  induction k with
  | nil =>
      intro i _
      simp [List.findIdx?_cons]
  | cons a l ih =>
      intro i h
      have ha : ¬ (a == 0) = true := by
        simpa using h a (by simp)
      simp only [List.cons_append, List.findIdx?_cons, ha, if_false,
        Bool.false_eq_true]
      rw [ih (i + 1) (fun b hb => h b (by simp [hb]))]
      congr 1
      simp
      omega

lemma setAssoc_append_of_not_mem (k v : List Nat) :
    ∀ acc : List (List Nat × List Nat), k ∉ acc.map Prod.fst →
      setAssoc acc k v = acc ++ [(k, v)] := by
  intro acc
  induction acc with
  | nil =>
      intro _
      rfl
  | cons kv rest ih =>
      intro h
      have hk : kv.1 ≠ k := by
        intro he
        exact h (by simp [he])
      obtain ⟨k1, v1⟩ := kv
      simp only [setAssoc, if_neg hk, List.cons_append]
      rw [ih (fun hm => h (by simp [hm]))]

lemma getAssoc_setAssoc_self (k v : List Nat) :
    ∀ ps : List (List Nat × List Nat),
      getAssoc (setAssoc ps k v) k = some v := by
  intro ps
  induction ps with
  | nil => simp [setAssoc, getAssoc]
  | cons kv rest ih =>
      obtain ⟨k1, v1⟩ := kv
      by_cases hk : k1 = k
      · simp [setAssoc, hk, getAssoc]
      · simp [setAssoc, hk, getAssoc, ih]

lemma getAssoc_setAssoc_ne (k v k' : List Nat) (hne : k' ≠ k) :
    ∀ ps : List (List Nat × List Nat),
      getAssoc (setAssoc ps k v) k' = getAssoc ps k' := by
  intro ps
  induction ps with
  | nil => simp [setAssoc, getAssoc, Ne.symm hne]
  | cons kv rest ih =>
      obtain ⟨k1, v1⟩ := kv
      by_cases hk : k1 = k
      · subst hk
        simp [setAssoc, getAssoc, Ne.symm hne]
      · simp [setAssoc, hk, getAssoc, ih]

lemma mem_setAssoc (k v : List Nat) :
    ∀ (ps : List (List Nat × List Nat)) (kv : List Nat × List Nat),
      kv ∈ setAssoc ps k v → kv ∈ ps ∨ kv = (k, v) := by
  intro ps
  induction ps with
  | nil =>
      intro kv h
      simp [setAssoc] at h
      exact Or.inr (by simp [h])
  | cons p rest ih =>
      intro kv h
      obtain ⟨k1, v1⟩ := p
      by_cases hk : k1 = k
      · simp only [setAssoc, if_pos hk] at h
        rcases List.mem_cons.mp h with h | h
        · exact Or.inr h
        · exact Or.inl (List.mem_cons_of_mem _ h)
      · simp only [setAssoc, if_neg hk] at h
        rcases List.mem_cons.mp h with h | h
        · exact Or.inl (by simp [h])
        · rcases ih kv h with h | h
          · exact Or.inl (List.mem_cons_of_mem _ h)
          · exact Or.inr h

lemma setAssoc_keys (k v : List Nat) :
    ∀ ps : List (List Nat × List Nat),
      (setAssoc ps k v).map Prod.fst =
        if k ∈ ps.map Prod.fst then ps.map Prod.fst
        else ps.map Prod.fst ++ [k] := by
  intro ps
  induction ps with
  | nil => simp [setAssoc]
  | cons p rest ih =>
      obtain ⟨k1, v1⟩ := p
      by_cases hk : k1 = k
      · subst hk
        simp [setAssoc]

      · simp only [setAssoc, if_neg hk, List.map_cons, ih]
        by_cases hm : k ∈ rest.map Prod.fst
        · simp [hm, Ne.symm hk]
        · simp [hm, Ne.symm hk]

/-- The scanning loop consumes exactly the built key/value section:
starting at an offset that is `|pairs| + 1` bytes before the declared
end, it appends every pair to the accumulator in order. -/
lemma parseStartupLoop_spec :
    ∀ (ps acc : List (List Nat × List Nat)) (fuel : Nat) (L : Int)
      (offset : Nat),
      (∀ kv ∈ ps, kv.1 ≠ [] ∧ (0 : Nat) ∉ kv.1 ∧ (0 : Nat) ∉ kv.2) →
      (ps.map Prod.fst).Nodup →
      (∀ k ∈ ps.map Prod.fst, k ∉ acc.map Prod.fst) →
      (pairsBytes ps).length < fuel →
      (offset : Int) = L - ((pairsBytes ps).length + 1) →
      parseStartupLoop fuel (pairsBytes ps ++ [0]) offset L acc =
        acc ++ ps := by
  intro ps
  induction ps with
  | nil =>
      intro acc fuel L offset _ _ _ hfuel hoff
      cases fuel with
      | zero => omega
      | succ fuel =>
          have hcond : ¬ ((offset : Int) < L - 1) := by
            simp only [pairsBytes, List.length_nil] at hoff
            omega
          simp [parseStartupLoop, hcond]
  | cons kv rest ih =>
      intro acc fuel L offset hgood hnd hdis hfuel hoff
      obtain ⟨k, v⟩ := kv
      obtain ⟨hk1, hk0, hv0⟩ := hgood (k, v) (by simp)
      have hndc : k ∉ rest.map Prod.fst ∧ (rest.map Prod.fst).Nodup := by
        rw [List.map_cons, List.nodup_cons] at hnd
        exact hnd
      cases fuel with
      | zero => omega
      | succ fuel =>
          have hlen : (pairsBytes ((k, v) :: rest)).length =
              k.length + v.length + 2 + (pairsBytes rest).length := by
            simp [pairsBytes]
            omega
          have hrem : pairsBytes ((k, v) :: rest) ++ [0] =
              k ++ 0 :: (v ++ 0 :: (pairsBytes rest ++ [0])) := by
            simp [pairsBytes]
          have hcond : (offset : Int) < L - 1 := by
            rw [hlen] at hoff
            push_cast at hoff
            omega
          have hfind1 : List.findIdx? (· == 0)
              (k ++ 0 :: (v ++ 0 :: (pairsBytes rest ++ [0]))) =
              some k.length := by
            have := findIdx0_append (v ++ 0 :: (pairsBytes rest ++ [0])) k 0
              (fun b hb he => hk0 (he ▸ hb))
            simpa using this
          have hbound1 : ¬ (L ≤ ((offset : Int) + (k.length : Nat))) := by
            rw [hlen] at hoff
            push_cast at hoff ⊢
            omega
          have htake1 : (k ++ 0 :: (v ++ 0 :: (pairsBytes rest ++ [0]))).take
              k.length = k := List.take_left' rfl
          have hsplit1 : k ++ 0 :: (v ++ 0 :: (pairsBytes rest ++ [0])) =
              (k ++ [0]) ++ (v ++ 0 :: (pairsBytes rest ++ [0])) := by
            simp
          have hdrop1 : (k ++ 0 :: (v ++ 0 :: (pairsBytes rest ++ [0]))).drop
              (k.length + 1) = v ++ 0 :: (pairsBytes rest ++ [0]) := by
            rw [hsplit1]
            exact List.drop_left' (by simp)
          have hfind2 : List.findIdx? (· == 0)
              (v ++ 0 :: (pairsBytes rest ++ [0])) = some v.length := by
            have := findIdx0_append (pairsBytes rest ++ [0]) v 0
              (fun b hb he => hv0 (he ▸ hb))
            simpa using this
          have hbound2 : ¬ (L ≤ ((offset : Int) + (k.length : Nat) + 1 +
              (v.length : Nat))) := by
            rw [hlen] at hoff
            push_cast at hoff ⊢
            omega
          have htake2 : (v ++ 0 :: (pairsBytes rest ++ [0])).take v.length =
              v := List.take_left' rfl
          have hsplit2 : v ++ 0 :: (pairsBytes rest ++ [0]) =
              (v ++ [0]) ++ (pairsBytes rest ++ [0]) := by
            simp
          have hdrop2 : (v ++ 0 :: (pairsBytes rest ++ [0])).drop
              (v.length + 1) = pairsBytes rest ++ [0] := by
            rw [hsplit2]
            exact List.drop_left' (by simp)
          rw [hrem]
          simp only [parseStartupLoop, if_pos hcond, hfind1, if_neg hbound1,
            htake1, hdrop1, hfind2, if_neg hbound2, htake2, hdrop2,
            if_pos hk1]
          rw [setAssoc_append_of_not_mem k v acc (hdis k (by simp))]
          have hres := ih (acc ++ [(k, v)]) fuel L
            (offset + k.length + 1 + v.length + 1)
            (fun kv hm => hgood kv (by simp [hm]))
            hndc.2
            (fun k' hm => by
              simp only [List.map_append, List.mem_append]
              intro hcon
              rcases hcon with hcon | hcon
              · exact hdis k' (by simp [hm]) hcon
              · have : k' = k := by
                  simpa using hcon
                exact hndc.1 (this ▸ hm))
            (by
              rw [hlen] at hfuel
              omega)
            (by
              rw [hlen] at hoff
              push_cast at hoff ⊢
              omega)
          rw [hres]
          simp

lemma buildStartupMessage_eq (ps : List (List Nat × List Nat)) :
    buildStartupMessage ps =
      int32BE (8 + (pairsBytes ps).length + 1) ++
        (int32BE 196608 ++ (pairsBytes ps ++ [0])) := by
  simp [buildStartupMessage, List.append_assoc]

/-- Parsing inverts building on any legal parameter list (non-empty
keys, no interior null bytes, distinct keys, total length below
`2 ^ 31`). -/
lemma parse_build (ps : List (List Nat × List Nat))
    (h1 : ∀ kv ∈ ps, kv.1 ≠ [] ∧ (0 : Nat) ∉ kv.1 ∧ (0 : Nat) ∉ kv.2)
    (h2 : (ps.map Prod.fst).Nodup)
    (h3 : 8 + (pairsBytes ps).length + 1 < 2 ^ 31) :
    parseStartupMessage (buildStartupMessage ps) = ps := by
  have hread : readInt32BE (buildStartupMessage ps) =
      ((8 + (pairsBytes ps).length + 1 : Nat) : Int) := by
    rw [buildStartupMessage_eq]
    exact readInt32BE_int32BE _ h3 _
  have hdrop : (buildStartupMessage ps).drop 8 = pairsBytes ps ++ [0] := by
    rw [buildStartupMessage_eq]
    simp [int32BE]
  have hlen : (buildStartupMessage ps).length =
      9 + (pairsBytes ps).length := by
    rw [buildStartupMessage_eq]
    simp [int32BE]
    omega
  unfold parseStartupMessage
  rw [hread, hdrop, hlen]
  have hspec := parseStartupLoop_spec ps [] (9 + (pairsBytes ps).length + 1)
    ((8 + (pairsBytes ps).length + 1 : Nat) : Int) 8 h1 h2 (by simp)
    (by omega) (by push_cast; omega)
  simpa using hspec

/-- **C6.**  The startup codec round-trips: building the parse of a
legal startup frame reproduces the frame byte-for-byte, and parsing a
frame rebuilt with the `user` parameter rewritten to `X` yields `user =
X` with every other parameter preserved (the rewrite itself keeping the
original order, per the JS `Map.set` semantics of `setAssoc`). -/
theorem C6_roundtrip (ps : List (List Nat × List Nat)) (X : List Nat)
    (h1 : ∀ kv ∈ ps, kv.1 ≠ [] ∧ (0 : Nat) ∉ kv.1 ∧ (0 : Nat) ∉ kv.2)
    (h2 : (ps.map Prod.fst).Nodup)
    (h3 : 8 + (pairsBytes ps).length + 1 < 2 ^ 31)
    (hX : (0 : Nat) ∉ X)
    (h3' : 8 + (pairsBytes (setAssoc ps (ascii "user") X)).length + 1 <
      2 ^ 31) :
    buildStartupMessage (parseStartupMessage (buildStartupMessage ps)) =
      buildStartupMessage ps ∧
    getAssoc (parseStartupMessage
        (buildStartupMessage (setAssoc ps (ascii "user") X)))
      (ascii "user") = some X ∧
    (∀ k, k ≠ ascii "user" →
      getAssoc (parseStartupMessage
          (buildStartupMessage (setAssoc ps (ascii "user") X))) k =
        getAssoc ps k) := by
  have hgood' : ∀ kv ∈ setAssoc ps (ascii "user") X,
      kv.1 ≠ [] ∧ (0 : Nat) ∉ kv.1 ∧ (0 : Nat) ∉ kv.2 := by
    intro kv hm
    rcases mem_setAssoc (ascii "user") X ps kv hm with h | h
    · exact h1 kv h
    · rw [h]
      refine ⟨?_, ?_, ?_⟩
      · show ascii "user" ≠ []
        decide
      · show (0 : Nat) ∉ ascii "user"
        decide
      · show (0 : Nat) ∉ X
        exact hX
  have hnd' : ((setAssoc ps (ascii "user") X).map Prod.fst).Nodup := by
    rw [setAssoc_keys]
    by_cases hm : ascii "user" ∈ ps.map Prod.fst
    · rw [if_pos hm]
      exact h2
    · rw [if_neg hm]
      simp [List.nodup_append, h2, hm]
  have hps' := parse_build (setAssoc ps (ascii "user") X) hgood' hnd' h3'
  refine ⟨?_, ?_, ?_⟩
  · rw [parse_build ps h1 h2 h3]
  · rw [hps']
    exact getAssoc_setAssoc_self (ascii "user") X ps
  · intro k hk
    rw [hps']
    exact getAssoc_setAssoc_ne (ascii "user") X k hk ps

/-- **C6, witness.**  A two-parameter startup (`user=postgres`,
`database=db`) round-trips, and rewriting the user to `app_user`
preserves the database parameter. -/
theorem C6_roundtrip_witness :
    buildStartupMessage (parseStartupMessage (buildStartupMessage
        [(ascii "user", ascii "postgres"), (ascii "database", ascii "db")])) =
      buildStartupMessage
        [(ascii "user", ascii "postgres"), (ascii "database", ascii "db")] ∧
    getAssoc (parseStartupMessage (buildStartupMessage
        (setAssoc [(ascii "user", ascii "postgres"),
          (ascii "database", ascii "db")] (ascii "user") (ascii "app_user"))))
      (ascii "user") = some (ascii "app_user") ∧
    getAssoc (parseStartupMessage (buildStartupMessage
        (setAssoc [(ascii "user", ascii "postgres"),
          (ascii "database", ascii "db")] (ascii "user") (ascii "app_user"))))
      (ascii "database") = some (ascii "db") := by
  have h := C6_roundtrip
    [(ascii "user", ascii "postgres"), (ascii "database", ascii "db")]
    (ascii "app_user") (by decide) (by decide) (by decide) (by decide)
    (by decide)
  refine ⟨h.1, h.2.1, ?_⟩
  rw [h.2.2 (ascii "database") (by decide)]
  decide

-- ── C1: frame-stream codec lemmas ──────────────────────────────────────

lemma encodeFrame_length (g : Frame) :
    (encodeFrame g).length = 5 + g.payload.length := by
  simp only [encodeFrame, int32BE, List.length_cons, List.length_append,
    List.cons_append, List.nil_append]
  omega

lemma encodeFrames_append (a b : List Frame) :
    encodeFrames (a ++ b) = encodeFrames a ++ encodeFrames b := by
  induction a with
  | nil => simp [encodeFrames]
  | cons f fs ih => simp [encodeFrames, ih]

lemma encodeFrame_drop5 (g : Frame) : (encodeFrame g).drop 5 = g.payload := by
  simp [encodeFrame, int32BE]

lemma nextBackendMessage_encodeFrame (g : Frame) (rest : List Nat)
    (hwf : 4 + g.payload.length < 2 ^ 31) :
    nextBackendMessage (encodeFrame g ++ rest) =
      some ({ type := g.type,
              totalLength := 1 + ((4 + g.payload.length : Nat) : Int),
              payload := g.payload, raw := encodeFrame g }, rest) := by
  have hlen : (encodeFrame g ++ rest).length =
      (5 + g.payload.length) + rest.length := by
    simp [encodeFrame_length]
  have hdrop1 : (encodeFrame g ++ rest).drop 1 =
      int32BE (4 + g.payload.length) ++ (g.payload ++ rest) := by
    simp [encodeFrame]
  have hread : readInt32BE ((encodeFrame g ++ rest).drop 1) =
      ((4 + g.payload.length : Nat) : Int) := by
    rw [hdrop1]
    exact readInt32BE_int32BE _ hwf _
  have h5 : ¬ ((encodeFrame g ++ rest).length < 5) := by omega
  have htot : ¬ (((encodeFrame g ++ rest).length : Int) <
      1 + ((4 + g.payload.length : Nat) : Int)) := by
    rw [hlen]
    push_cast
    omega
  have hhead : (encodeFrame g ++ rest).headD 0 = g.type := by
    simp [encodeFrame]
  have hjlen : jsIdx (encodeFrame g ++ rest).length
      (1 + ((4 + g.payload.length : Nat) : Int)) = 5 + g.payload.length := by
    unfold jsIdx
    rw [if_neg (by omega)]
    rw [hlen]
    have h1 : ((1 : Int) + ((4 + g.payload.length : Nat) : Int)).toNat =
        5 + g.payload.length := by omega
    rw [h1]
    omega
  have hj5 : jsIdx (encodeFrame g ++ rest).length 5 = 5 := by
    unfold jsIdx
    rw [if_neg (by omega)]
    rw [hlen]
    have h1 : ((5 : Int)).toNat = 5 := by omega
    rw [h1]
    omega
  have hj0 : jsIdx (encodeFrame g ++ rest).length 0 = 0 := by
    simp [jsIdx]
  have htake : (encodeFrame g ++ rest).take (5 + g.payload.length) =
      encodeFrame g :=
    List.take_left' (encodeFrame_length g)
  have hdropN : (encodeFrame g ++ rest).drop (5 + g.payload.length) = rest :=
    List.drop_left' (encodeFrame_length g)
  simp only [nextBackendMessage, hread]
  rw [if_neg h5, if_neg htot]
  simp only [jsSub, jsSubFrom, hjlen, hj5, hj0, htake, hdropN, hhead,
    List.drop_zero, encodeFrame_drop5]

lemma nextBackendMessage_prefix_none (g : Frame) (p : List Nat)
    (hwf : 4 + g.payload.length < 2 ^ 31)
    (hp : p <+: encodeFrame g) (hne : p ≠ encodeFrame g) :
    nextBackendMessage p = none := by
  have hle : p.length ≤ 5 + g.payload.length := by
    have h1 := hp.length_le
    rwa [encodeFrame_length] at h1
  have hlt : p.length < 5 + g.payload.length := by
    rcases Nat.lt_or_ge p.length (5 + g.payload.length) with h | h
    · exact h
    · exact absurd (hp.eq_of_length (by rw [encodeFrame_length]; omega)) hne
  by_cases h5 : p.length < 5
  · simp [nextBackendMessage, h5]
  · push_neg at h5
    have hpt : p = (encodeFrame g).take p.length :=
      (List.prefix_iff_eq_take).1 hp
    have hdrop1 : p.drop 1 =
        int32BE (4 + g.payload.length) ++ g.payload.take (p.length - 5) := by
      conv_lhs => rw [hpt]
      rw [List.drop_take]
      have he : (encodeFrame g).drop 1 =
          int32BE (4 + g.payload.length) ++ g.payload := by
        simp [encodeFrame]
      rw [he, List.take_append_eq_append_take,
        List.take_of_length_le (by simp [int32BE]; omega)]
      have h4 : (int32BE (4 + g.payload.length)).length = 4 := by
        simp [int32BE]
      have h15 : p.length - 1 - 4 = p.length - 5 := by omega
      rw [h4, h15]
    have hread : readInt32BE (p.drop 1) =
        ((4 + g.payload.length : Nat) : Int) := by
      rw [hdrop1]
      exact readInt32BE_int32BE _ hwf _
    have htot : ((p.length : Int) <
        1 + ((4 + g.payload.length : Nat) : Int)) := by
      push_cast
      omega
    simp only [nextBackendMessage, hread]
    rw [if_neg (by omega : ¬ p.length < 5), if_pos htot]

lemma prefix_encodeFrames_cases (g : Frame) (gs : List Frame) (buf : List Nat)
    (h : buf <+: encodeFrames (g :: gs)) :
    buf = [] ∨
    (buf <+: encodeFrame g ∧ buf ≠ encodeFrame g) ∨
    (∃ buf2, buf = encodeFrame g ++ buf2 ∧ buf2 <+: encodeFrames gs) := by
  by_cases hle : (encodeFrame g).length ≤ buf.length
  · right; right
    have hpre : encodeFrame g <+: buf :=
      List.prefix_of_prefix_length_le
        ⟨encodeFrames gs, by simp [encodeFrames]⟩ h hle
    obtain ⟨buf2, hb2⟩ := hpre
    refine ⟨buf2, hb2.symm, ?_⟩
    rw [← hb2] at h
    have h2 : encodeFrame g ++ buf2 <+:
        encodeFrame g ++ encodeFrames gs := by
      simpa [encodeFrames] using h
    exact (List.prefix_append_right_inj _).1 h2
  · right; left
    push_neg at hle
    refine ⟨?_, ?_⟩
    · exact List.prefix_of_prefix_length_le h
        ⟨encodeFrames gs, by simp [encodeFrames]⟩ (le_of_lt hle)
    · intro hh
      rw [hh] at hle
      omega

lemma isAuthOk_frame (g : Frame) (t : Int) :
    isAuthOk { type := g.type, totalLength := t, payload := g.payload,
               raw := encodeFrame g } = isAuthOkFrame g := rfl

lemma isReadyForQuery_frame (g : Frame) (t : Int) :
    isReadyForQuery { type := g.type, totalLength := t, payload := g.payload,
                      raw := encodeFrame g } = (g.type == 0x5a) := rfl

lemma isErrorResponse_frame (g : Frame) (t : Int) :
    isErrorResponse { type := g.type, totalLength := t, payload := g.payload,
                      raw := encodeFrame g } = (g.type == 0x45) := rfl

lemma encodeFrame_headD (g : Frame) : (encodeFrame g).headD 0 = g.type := by
  simp [encodeFrame]

-- ── C1: first-Z-write ordering lemmas ──────────────────────────────────

lemma findIdx_go_eq_none {α : Type} (p : α → Bool) (l : List α)
    (h : ∀ o ∈ l, p o = false) : ∀ i, List.findIdx? p l i = none := by
  induction l with
  | nil => intro i; rfl
  | cons x xs ih =>
      intro i
      rw [List.findIdx?]
      rw [if_neg (by simp [h x (by simp)])]
      exact ih (fun o ho => h o (by simp [ho])) (i + 1)

lemma findIdx_go_append_none {α : Type} (p : α → Bool) (l1 l2 : List α) :
    ∀ i, List.findIdx? p l1 i = none →
      List.findIdx? p (l1 ++ l2) i = List.findIdx? p l2 (i + l1.length) := by
  induction l1 with
  | nil =>
      intro i _
      simp
  | cons x xs ih =>
      intro i h
      rw [List.findIdx?] at h
      rw [List.cons_append, List.findIdx?]
      by_cases hx : p x = true
      · rw [if_pos hx] at h
        exact absurd h (by simp)
      · rw [if_neg hx] at h
        rw [if_neg hx]
        rw [ih (i + 1) h]
        have h2 : i + 1 + xs.length = i + (x :: xs).length := by
          simp
          omega
        rw [h2]

lemma findIdx_go_append_some {α : Type} (p : α → Bool) (l1 l2 : List α)
    (j : Nat) :
    ∀ i, List.findIdx? p l1 i = some j →
      List.findIdx? p (l1 ++ l2) i = some j := by
  induction l1 with
  | nil =>
      intro i h
      simp [List.findIdx?] at h
  | cons x xs ih =>
      intro i h
      rw [List.findIdx?] at h
      rw [List.cons_append, List.findIdx?]
      by_cases hx : p x = true
      · rw [if_pos hx] at h
        rw [if_pos hx]
        exact h
      · rw [if_neg hx] at h
        rw [if_neg hx]
        exact ih (i + 1) h

lemma findIdx_go_lt {α : Type} (p : α → Bool) (l : List α) (j : Nat) :
    ∀ i, List.findIdx? p l i = some j → i ≤ j ∧ j < i + l.length := by
  induction l with
  | nil =>
      intro i h
      simp [List.findIdx?] at h
  | cons x xs ih =>
      intro i h
      rw [List.findIdx?] at h
      by_cases hx : p x = true
      · rw [if_pos hx] at h
        have h2 : i = j := by
          have := Option.some.inj h
          omega
        simp [← h2]
      · rw [if_neg hx] at h
        have := ih (i + 1) h
        simp
        omega

lemma findIdx_first {α : Type} (p : α → Bool) (l1 l2 : List α) (x : α)
    (h1 : ∀ o ∈ l1, p o = false) (hx : p x = true) :
    (l1 ++ x :: l2).findIdx? p = some l1.length := by
  rw [findIdx_go_append_none p l1 (x :: l2) 0 (findIdx_go_eq_none p l1 h1 0)]
  rw [List.findIdx?, if_pos hx]
  simp

lemma firstZOrdered_of_noZw (outs : List Output) (h : noZw outs) :
    firstZOrdered outs := by
  intro i hi
  rw [findIdx_go_eq_none _ _ h 0] at hi
  simp at hi

lemma firstZOrdered_append (outs os : List Output)
    (h : firstZOrdered outs)
    (hz : (outs.findIdx? isZwrite).isSome = true ∨ noZw os) :
    firstZOrdered (outs ++ os) ∧
    ((outs ++ os).findIdx? isZwrite).isSome =
      (outs.findIdx? isZwrite).isSome := by
  cases hout : outs.findIdx? isZwrite with
  | some j =>
      have hfull := findIdx_go_append_some isZwrite outs os j 0 hout
      refine ⟨?_, by simp [hfull, hout]⟩
      intro i hi
      rw [hfull] at hi
      obtain rfl : j = i := Option.some.inj hi
      have hjlt := (findIdx_go_lt isZwrite outs j 0 hout).2
      have htake : (outs ++ os).take j = outs.take j := by
        rw [List.take_append_eq_append_take]
        have h0 : j - outs.length = 0 := by omega
        rw [h0]
        simp
      rw [htake]
      exact h j hout
  | none =>
      rcases hz with hs | hn
      · rw [hout] at hs
        simp at hs
      · have hfull := findIdx_go_append_none isZwrite outs os 0 hout
        rw [findIdx_go_eq_none _ _ hn _] at hfull
        refine ⟨?_, by simp [hfull, hout]⟩
        intro i hi
        rw [hfull] at hi
        simp at hi

lemma firstZOrdered_first (pre post : List Output) (x : Output)
    (hpre : ∀ o ∈ pre, isZwrite o = false) (hx : isZwrite x = true)
    (hinj : ∃ q, Output.injectionWrite q ∈ pre)
    (hlast : pre.getLast? = some (Output.obsServerFrame 0x5a)) :
    firstZOrdered (pre ++ x :: post) ∧
    ((pre ++ x :: post).findIdx? isZwrite).isSome = true := by
  have hfind : (pre ++ x :: post).findIdx? isZwrite = some pre.length :=
    findIdx_first _ _ _ _ hpre hx
  refine ⟨?_, by rw [hfind]; rfl⟩
  intro i hi
  rw [hfind] at hi
  obtain rfl : pre.length = i := Option.some.inj hi
  rw [List.take_left]
  exact ⟨hinj, hlast⟩

lemma firstZOrdered_extract (o1 o2 : List Output) (b : List Nat)
    (h : firstZOrdered (o1 ++ Output.clientWrite b :: o2))
    (hb : b.headD 0 = 0x5a)
    (h1 : ∀ o ∈ o1, isZwrite o = false) :
    (∃ q, Output.injectionWrite q ∈ o1) ∧
    o1.getLast? = some (Output.obsServerFrame 0x5a) := by
  have hx : isZwrite (Output.clientWrite b) = true := by
    show (b.headD 0 == 0x5a) = true
    rw [hb]
    rfl
  have hfind := findIdx_first isZwrite o1 o2 _ h1 hx
  obtain ⟨hq, hl⟩ := h o1.length hfind
  rw [List.take_left] at hq hl
  exact ⟨hq, hl⟩

-- ── C1: loop behaviour on well-formed frame-stream prefixes ────────────

/-- `handleInjectionResponse`'s loop on a prefix of a well-formed frame
stream: it either consumes whole frames and stalls on a partial one
(leaving the remainder buffered), closes on an ErrorResponse, or — on the
ReadyForQuery frame — releases the buffered frame `r` right after the
`obsServerFrame 0x5a` observation and enters `TRANSPARENT`.  No output
before the release is a 'Z'-headed client write. -/
lemma injStream (r : List Nat) :
    ∀ (fs : List Frame) (fuel : Nat) (c : Conn) (buf : List Nat),
      buf.length < fuel →
      buf <+: encodeFrames fs →
      wfFrames fs →
      c.bufferedReadyForQuery = some r →
      (injectionLoopGo fuel c buf).1.isBypass = c.isBypass ∧
      (((injectionLoopGo fuel c buf).1.state = c.state ∧
        (injectionLoopGo fuel c buf).1.bufferedReadyForQuery = some r ∧
        noZw (injectionLoopGo fuel c buf).2 ∧
        (∃ fs1 fs2, fs = fs1 ++ fs2 ∧
          buf = encodeFrames fs1 ++
            (injectionLoopGo fuel c buf).1.serverBuf)) ∨
       ((injectionLoopGo fuel c buf).1.state = .closed ∧
        noZw (injectionLoopGo fuel c buf).2) ∨
       ((injectionLoopGo fuel c buf).1.state = .transparent ∧
        ∃ os1 os2, (injectionLoopGo fuel c buf).2 =
            os1 ++ Output.obsServerFrame 0x5a ::
              Output.clientWrite r :: os2 ∧
          noZw os1)) := by
  intro fs
  induction fs with
  | nil =>
      intro fuel c buf hfuel hpre hwf hbr
      have hbuf : buf = [] := by simpa [encodeFrames] using hpre
      subst hbuf
      simp only [List.length_nil] at hfuel
      cases fuel with
      | zero => omega
      | succ fuel =>
          have hm : nextBackendMessage ([] : List Nat) = none := rfl
          refine ⟨by simp [injectionLoopGo, hm], Or.inl
            ⟨by simp [injectionLoopGo, hm],
             by simp [injectionLoopGo, hm, hbr],
             by simp [injectionLoopGo, hm, noZw],
             [], [], rfl, by simp [injectionLoopGo, hm, encodeFrames]⟩⟩
  | cons g gs ih =>
      intro fuel c buf hfuel hpre hwf hbr
      have hwfg : 4 + g.payload.length < 2 ^ 31 :=
        hwf g (List.mem_cons_self g gs)
      have hwf2 : wfFrames gs := by
        intro f hf
        exact hwf f (by simp [hf])
      cases fuel with
      | zero => omega
      | succ fuel =>
      rcases prefix_encodeFrames_cases _ _ _ hpre with hnil |
        ⟨hp, hne⟩ | ⟨buf2, hbuf, hpre2⟩
      · subst hnil
        have hm : nextBackendMessage ([] : List Nat) = none := rfl
        refine ⟨by simp [injectionLoopGo, hm], Or.inl
          ⟨by simp [injectionLoopGo, hm],
           by simp [injectionLoopGo, hm, hbr],
           by simp [injectionLoopGo, hm, noZw],
           [], g :: gs, rfl, by simp [injectionLoopGo, hm, encodeFrames]⟩⟩
      · have hm : nextBackendMessage buf = none :=
          nextBackendMessage_prefix_none g buf hwfg hp hne
        refine ⟨by simp [injectionLoopGo, hm], Or.inl
          ⟨by simp [injectionLoopGo, hm],
           by simp [injectionLoopGo, hm, hbr],
           by simp [injectionLoopGo, hm, noZw],
           [], g :: gs, rfl, by simp [injectionLoopGo, hm, encodeFrames]⟩⟩
      · subst hbuf
        have hm := nextBackendMessage_encodeFrame g buf2 hwfg
        have hel := encodeFrame_length g
        have hlt : buf2.length < (encodeFrame g ++ buf2).length := by
          simp only [List.length_append]
          omega
        have hf2 : buf2.length < fuel := by
          simp only [List.length_append] at hfuel
          omega
        have hpos : 0 < (encodeFrame g).length := by
          rw [hel]
          omega
        by_cases herr : g.type = 0x45
        · refine ⟨by simp [injectionLoopGo, hm, hpos, isErrorResponse, herr,
              cleanup_conn],
            Or.inr (Or.inl ⟨?_, ?_⟩)⟩
          · simp [injectionLoopGo, hm, hpos, isErrorResponse, herr,
              cleanup_conn]
          · have hout : (injectionLoopGo (fuel + 1) c
                (encodeFrame g ++ buf2)).2 =
                Output.obsServerFrame g.type ::
                  Output.clientWrite (encodeFrame g) ::
                  (if c.state = .closed then []
                   else [Output.destroySockets]) := by
              simp [injectionLoopGo, hm, hpos, isErrorResponse, herr,
                cleanup_out]
            rw [hout]
            intro x hx
            rcases List.mem_cons.1 hx with rfl | hx2
            · rfl
            rcases List.mem_cons.1 hx2 with rfl | hx3
            · show ((encodeFrame g).headD 0 == 0x5a) = false
              rw [encodeFrame_headD, herr]
              rfl
            · by_cases hcl : c.state = .closed
              · rw [if_pos hcl] at hx3
                simp at hx3
              · rw [if_neg hcl] at hx3
                simp at hx3
                subst hx3
                rfl
        · by_cases hrfq : g.type = 0x5a
          · refine ⟨by simp [injectionLoopGo, hm, hpos, isErrorResponse,
                isReadyForQuery, herr, hrfq, hbr, enterTransparent_conn],
              Or.inr (Or.inr ⟨?_, [],
                (if c.clientBuf = [] then []
                 else [Output.serverWrite c.clientBuf]) ++
                (if buf2 = [] then [] else [Output.clientWrite buf2]),
                ?_, by simp [noZw]⟩)⟩
            · simp [injectionLoopGo, hm, hpos, isErrorResponse,
                isReadyForQuery, herr, hrfq, hbr, enterTransparent_conn]
            · simp [injectionLoopGo, hm, hpos, isErrorResponse,
                isReadyForQuery, herr, hrfq, hbr, enterTransparent_conn,
                enterTransparent_out]
          · have hconn : (injectionLoopGo (fuel + 1) c
                (encodeFrame g ++ buf2)).1 =
                (injectionLoopGo fuel c buf2).1 := by
              simp [injectionLoopGo, hm, hpos, isErrorResponse,
                isReadyForQuery, herr, hrfq]
            have hout : (injectionLoopGo (fuel + 1) c
                (encodeFrame g ++ buf2)).2 =
                Output.obsServerFrame g.type ::
                  ((if g.type = 0x53
                    then [Output.clientWrite (encodeFrame g)] else []) ++
                   (injectionLoopGo fuel c buf2).2) := by
              simp [injectionLoopGo, hm, hpos, isErrorResponse,
                isReadyForQuery, herr, hrfq]
            have hforward : ∀ x, x ∈ (if g.type = 0x53
                then [Output.clientWrite (encodeFrame g)] else []) →
                isZwrite x = false := by
              intro x hx
              by_cases hps : g.type = 0x53
              · rw [if_pos hps] at hx
                simp at hx
                subst hx
                show ((encodeFrame g).headD 0 == 0x5a) = false
                rw [encodeFrame_headD, hps]
                rfl
              · rw [if_neg hps] at hx
                simp at hx
            obtain ⟨ih1, ihrest⟩ := ih fuel c buf2 hf2 hpre2 hwf2 hbr
            rw [hconn, hout]
            refine ⟨ih1, ?_⟩
            rcases ihrest with ⟨hst, hbq, hnz, fs1, fs2, hsplit, hleft⟩ |
              ⟨hst, hnz⟩ | ⟨hst, os1, os2, hoeq, hnz⟩
            · left
              refine ⟨hst, hbq, ?_, g :: fs1, fs2, by simp [hsplit], ?_⟩
              · intro x hx
                rcases List.mem_cons.1 hx with rfl | hx2
                · rfl
                rcases List.mem_append.1 hx2 with hx3 | hx4
                · exact hforward x hx3
                · exact hnz x hx4
              · simp only [encodeFrames, List.append_assoc]
                rw [← hleft]
            · right; left
              refine ⟨hst, ?_⟩
              intro x hx
              rcases List.mem_cons.1 hx with rfl | hx2
              · rfl
              rcases List.mem_append.1 hx2 with hx3 | hx4
              · exact hforward x hx3
              · exact hnz x hx4
            · right; right
              refine ⟨hst, Output.obsServerFrame g.type ::
                ((if g.type = 0x53
                  then [Output.clientWrite (encodeFrame g)] else []) ++ os1),
                os2, ?_, ?_⟩
              · rw [hoeq]
                simp
              · intro x hx
                rcases List.mem_cons.1 hx with rfl | hx2
                · rfl
                rcases List.mem_append.1 hx2 with hx3 | hx4
                · exact hforward x hx3
                · exact hnz x hx4

/-- `handlePostAuthData`'s loop on a prefix of a well-formed frame
stream: it forwards complete frames (none 'Z'-headed) until a partial
frame stalls it, or the first ReadyForQuery arrives — which is buffered
(head byte 'Z'), triggers the injection write, and leaves `INJECTING`
(or `CLOSED` if escaping throws). -/
lemma postAuthStream (cfg : Config) :
    ∀ (fs : List Frame) (fuel : Nat) (c : Conn) (buf : List Nat),
      buf.length < fuel →
      buf <+: encodeFrames fs →
      wfFrames fs →
      (postAuthLoopGo cfg fuel c buf).1.isBypass = c.isBypass ∧
      (((postAuthLoopGo cfg fuel c buf).1.state = c.state ∧
        noZw (postAuthLoopGo cfg fuel c buf).2 ∧
        (∃ fs1 fs2, fs = fs1 ++ fs2 ∧
          buf = encodeFrames fs1 ++
            (postAuthLoopGo cfg fuel c buf).1.serverBuf)) ∨
       ((postAuthLoopGo cfg fuel c buf).1.state = .injecting ∧
        (∃ r2, (postAuthLoopGo cfg fuel c buf).1.bufferedReadyForQuery =
            some r2 ∧ r2.headD 0 = 0x5a) ∧
        (∃ q, Output.injectionWrite q ∈ (postAuthLoopGo cfg fuel c buf).2) ∧
        noZw (postAuthLoopGo cfg fuel c buf).2 ∧
        (∃ fs1 fs2, fs = fs1 ++ fs2 ∧
          buf = encodeFrames fs1 ++
            (postAuthLoopGo cfg fuel c buf).1.serverBuf)) ∨
       ((postAuthLoopGo cfg fuel c buf).1.state = .closed ∧
        noZw (postAuthLoopGo cfg fuel c buf).2)) := by
  intro fs
  induction fs with
  | nil =>
      intro fuel c buf hfuel hpre hwf
      have hbuf : buf = [] := by simpa [encodeFrames] using hpre
      subst hbuf
      simp only [List.length_nil] at hfuel
      cases fuel with
      | zero => omega
      | succ fuel =>
          have hm : nextBackendMessage ([] : List Nat) = none := rfl
          refine ⟨by simp [postAuthLoopGo, hm], Or.inl
            ⟨by simp [postAuthLoopGo, hm],
             by simp [postAuthLoopGo, hm, noZw],
             [], [], rfl, by simp [postAuthLoopGo, hm, encodeFrames]⟩⟩
  | cons g gs ih =>
      intro fuel c buf hfuel hpre hwf
      have hwfg : 4 + g.payload.length < 2 ^ 31 :=
        hwf g (List.mem_cons_self g gs)
      have hwf2 : wfFrames gs := by
        intro f hf
        exact hwf f (by simp [hf])
      cases fuel with
      | zero => omega
      | succ fuel =>
      rcases prefix_encodeFrames_cases _ _ _ hpre with hnil |
        ⟨hp, hne⟩ | ⟨buf2, hbuf, hpre2⟩
      · subst hnil
        have hm : nextBackendMessage ([] : List Nat) = none := rfl
        refine ⟨by simp [postAuthLoopGo, hm], Or.inl
          ⟨by simp [postAuthLoopGo, hm],
           by simp [postAuthLoopGo, hm, noZw],
           [], g :: gs, rfl, by simp [postAuthLoopGo, hm, encodeFrames]⟩⟩
      · have hm : nextBackendMessage buf = none :=
          nextBackendMessage_prefix_none g buf hwfg hp hne
        refine ⟨by simp [postAuthLoopGo, hm], Or.inl
          ⟨by simp [postAuthLoopGo, hm],
           by simp [postAuthLoopGo, hm, noZw],
           [], g :: gs, rfl, by simp [postAuthLoopGo, hm, encodeFrames]⟩⟩
      · subst hbuf
        have hm := nextBackendMessage_encodeFrame g buf2 hwfg
        have hel := encodeFrame_length g
        have hf2 : buf2.length < fuel := by
          simp only [List.length_append] at hfuel
          omega
        have hpos : 0 < (encodeFrame g).length := by
          rw [hel]
          omega
        by_cases hrfq : g.type = 0x5a
        · cases hsql : injectionSqlText cfg.contextVariables c.contextValues
              (c.actualUser.getD []) with
          | ok sql =>
              refine ⟨by simp [postAuthLoopGo, hm, hpos, isReadyForQuery,
                  hrfq, injectTenantContext, hsql],
                Or.inr (Or.inl ⟨?_,
                  ⟨encodeFrame g, ?_, by rw [encodeFrame_headD]; exact hrfq⟩,
                  ⟨buildQueryMessage sql, ?_⟩, ?_, [g], gs, rfl, ?_⟩)⟩
              · simp [postAuthLoopGo, hm, hpos, isReadyForQuery, hrfq,
                  injectTenantContext, hsql]
              · simp [postAuthLoopGo, hm, hpos, isReadyForQuery, hrfq,
                  injectTenantContext, hsql]
              · simp [postAuthLoopGo, hm, hpos, isReadyForQuery, hrfq,
                  injectTenantContext, hsql]
              · have hout : (postAuthLoopGo cfg (fuel + 1) c
                    (encodeFrame g ++ buf2)).2 =
                    [Output.obsServerFrame g.type,
                     Output.injectionWrite (buildQueryMessage sql)] := by
                  simp [postAuthLoopGo, hm, hpos, isReadyForQuery, hrfq,
                    injectTenantContext, hsql]
                rw [hout]
                intro x hx
                rcases List.mem_cons.1 hx with rfl | hx2
                · rfl
                simp at hx2
                subst hx2
                rfl
              · simp [postAuthLoopGo, hm, hpos, isReadyForQuery, hrfq,
                  injectTenantContext, hsql, encodeFrames]
          | error err =>
              refine ⟨by simp [postAuthLoopGo, hm, hpos, isReadyForQuery,
                  hrfq, injectTenantContext, hsql, cleanup_conn],
                Or.inr (Or.inr ⟨?_, ?_⟩)⟩
              · simp [postAuthLoopGo, hm, hpos, isReadyForQuery, hrfq,
                  injectTenantContext, hsql, cleanup_conn]
              · have hout : (postAuthLoopGo cfg (fuel + 1) c
                    (encodeFrame g ++ buf2)).2 =
                    [Output.obsServerFrame g.type,
                     Output.destroySockets] := by
                  simp [postAuthLoopGo, hm, hpos, isReadyForQuery, hrfq,
                    injectTenantContext, hsql, cleanup_out]
                rw [hout]
                intro x hx
                rcases List.mem_cons.1 hx with rfl | hx2
                · rfl
                simp at hx2
                subst hx2
                rfl
        · have hconn : (postAuthLoopGo cfg (fuel + 1) c
              (encodeFrame g ++ buf2)).1 =
              (postAuthLoopGo cfg fuel c buf2).1 := by
            simp [postAuthLoopGo, hm, hpos, isReadyForQuery, hrfq]
          have hout : (postAuthLoopGo cfg (fuel + 1) c
              (encodeFrame g ++ buf2)).2 =
              Output.obsServerFrame g.type ::
                Output.clientWrite (encodeFrame g) ::
                (postAuthLoopGo cfg fuel c buf2).2 := by
            simp [postAuthLoopGo, hm, hpos, isReadyForQuery, hrfq]
          have hfw : isZwrite (Output.clientWrite (encodeFrame g)) = false := by
            show ((encodeFrame g).headD 0 == 0x5a) = false
            rw [encodeFrame_headD]
            simp [hrfq]
          obtain ⟨ih1, ihrest⟩ := ih fuel c buf2 hf2 hpre2 hwf2
          rw [hconn, hout]
          refine ⟨ih1, ?_⟩
          rcases ihrest with ⟨hst, hnz, fs1, fs2, hsplit, hleft⟩ |
            ⟨hst, hr2, hq, hnz, fs1, fs2, hsplit, hleft⟩ | ⟨hst, hnz⟩
          · left
            refine ⟨hst, ?_, g :: fs1, fs2, by simp [hsplit], ?_⟩
            · intro x hx
              rcases List.mem_cons.1 hx with rfl | hx2
              · rfl
              rcases List.mem_cons.1 hx2 with rfl | hx3
              · exact hfw
              · exact hnz x hx3
            · simp only [encodeFrames, List.append_assoc]
              rw [← hleft]
          · right; left
            obtain ⟨q, hqm⟩ := hq
            refine ⟨hst, hr2, ⟨q, by simp [hqm]⟩, ?_,
              g :: fs1, fs2, by simp [hsplit], ?_⟩
            · intro x hx
              rcases List.mem_cons.1 hx with rfl | hx2
              · rfl
              rcases List.mem_cons.1 hx2 with rfl | hx3
              · exact hfw
              · exact hnz x hx3
            · simp only [encodeFrames, List.append_assoc]
              rw [← hleft]
          · right; right
            refine ⟨hst, ?_⟩
            intro x hx
            rcases List.mem_cons.1 hx with rfl | hx2
            · rfl
            rcases List.mem_cons.1 hx2 with rfl | hx3
            · exact hfw
            · exact hnz x hx3

/-- `handleAuthData`'s loop on a prefix of a well-formed, RFQ-free-until-
AuthenticationOk frame stream: it forwards auth frames (none 'Z'-headed,
by `noEarlyRfq`), and on AuthenticationOk falls through to the post-auth
loop on the remaining bytes.  Possible exits: still authenticating
(partial frame), `POST_AUTH` (stalled after AuthOk), `INJECTING` (first
RFQ consumed, injection sent, RFQ raw frame buffered), or `CLOSED`. -/
lemma authStream (cfg : Config) :
    ∀ (fs : List Frame) (fuel : Nat) (c : Conn) (buf : List Nat),
      buf.length < fuel →
      buf <+: encodeFrames fs →
      wfFrames fs →
      noEarlyRfq fs = true →
      (authLoopGo cfg fuel c buf).1.isBypass = c.isBypass ∧
      (((authLoopGo cfg fuel c buf).1.state = c.state ∧
        noZw (authLoopGo cfg fuel c buf).2 ∧
        (∃ fs1 fs2, fs = fs1 ++ fs2 ∧ noEarlyRfq fs2 = true ∧
          buf = encodeFrames fs1 ++
            (authLoopGo cfg fuel c buf).1.serverBuf)) ∨
       ((authLoopGo cfg fuel c buf).1.state = .postAuth ∧
        noZw (authLoopGo cfg fuel c buf).2 ∧
        (∃ fs1 fs2, fs = fs1 ++ fs2 ∧
          buf = encodeFrames fs1 ++
            (authLoopGo cfg fuel c buf).1.serverBuf)) ∨
       ((authLoopGo cfg fuel c buf).1.state = .injecting ∧
        (∃ r2, (authLoopGo cfg fuel c buf).1.bufferedReadyForQuery =
            some r2 ∧ r2.headD 0 = 0x5a) ∧
        (∃ q, Output.injectionWrite q ∈ (authLoopGo cfg fuel c buf).2) ∧
        noZw (authLoopGo cfg fuel c buf).2 ∧
        (∃ fs1 fs2, fs = fs1 ++ fs2 ∧
          buf = encodeFrames fs1 ++
            (authLoopGo cfg fuel c buf).1.serverBuf)) ∨
       ((authLoopGo cfg fuel c buf).1.state = .closed ∧
        noZw (authLoopGo cfg fuel c buf).2)) := by
  intro fs
  induction fs with
  | nil =>
      intro fuel c buf hfuel hpre hwf hconf
      have hbuf : buf = [] := by simpa [encodeFrames] using hpre
      subst hbuf
      simp only [List.length_nil] at hfuel
      cases fuel with
      | zero => omega
      | succ fuel =>
          have hm : nextBackendMessage ([] : List Nat) = none := rfl
          refine ⟨by simp [authLoopGo, hm], Or.inl
            ⟨by simp [authLoopGo, hm],
             by simp [authLoopGo, hm, noZw],
             [], [], rfl, rfl, by simp [authLoopGo, hm, encodeFrames]⟩⟩
  | cons g gs ih =>
      intro fuel c buf hfuel hpre hwf hconf
      have hwfg : 4 + g.payload.length < 2 ^ 31 :=
        hwf g (List.mem_cons_self g gs)
      have hwf2 : wfFrames gs := by
        intro f hf
        exact hwf f (by simp [hf])
      cases fuel with
      | zero => omega
      | succ fuel =>
      rcases prefix_encodeFrames_cases _ _ _ hpre with hnil |
        ⟨hp, hne⟩ | ⟨buf2, hbuf, hpre2⟩
      · subst hnil
        have hm : nextBackendMessage ([] : List Nat) = none := rfl
        refine ⟨by simp [authLoopGo, hm], Or.inl
          ⟨by simp [authLoopGo, hm],
           by simp [authLoopGo, hm, noZw],
           [], g :: gs, rfl, hconf, by simp [authLoopGo, hm, encodeFrames]⟩⟩
      · have hm : nextBackendMessage buf = none :=
          nextBackendMessage_prefix_none g buf hwfg hp hne
        refine ⟨by simp [authLoopGo, hm], Or.inl
          ⟨by simp [authLoopGo, hm],
           by simp [authLoopGo, hm, noZw],
           [], g :: gs, rfl, hconf, by simp [authLoopGo, hm, encodeFrames]⟩⟩
      · subst hbuf
        have hm := nextBackendMessage_encodeFrame g buf2 hwfg
        have hel := encodeFrame_length g
        have hf2 : buf2.length < fuel := by
          simp only [List.length_append] at hfuel
          omega
        have hpos : 0 < (encodeFrame g).length := by
          rw [hel]
          omega
        by_cases hok : isAuthOkFrame g = true
        · have hokB : isAuthOk
              { type := g.type,
                totalLength := (1 : Int) + (4 + (g.payload.length : Int)),
                payload := g.payload, raw := encodeFrame g } = true := by
            rw [isAuthOk_frame]
            exact hok
          have hgt : g.type = 0x52 := by
            have h1 : (g.type == 0x52) = true := by
              have h2 := hok
              unfold isAuthOkFrame at h2
              exact (Bool.and_eq_true_iff.1
                ((Bool.and_eq_true_iff.1 h2).1)).1
            simpa using h1
          have hfw : isZwrite (Output.clientWrite (encodeFrame g)) = false := by
            show ((encodeFrame g).headD 0 == 0x5a) = false
            rw [encodeFrame_headD, hgt]
            rfl
          by_cases hre : buf2 = []
          · subst hre
            rw [List.append_nil] at hm
            refine ⟨by simp [authLoopGo, hm, hpos, hokB],
              Or.inr (Or.inl ⟨?_, ?_, [g], gs, rfl, ?_⟩)⟩
            · simp [authLoopGo, hm, hpos, hokB]
            · have hout : (authLoopGo cfg (fuel + 1) c
                  (encodeFrame g ++ [])).2 =
                  [Output.obsServerFrame g.type,
                   Output.clientWrite (encodeFrame g)] := by
                simp [authLoopGo, hm, hpos, hokB]
              rw [hout]
              intro x hx
              rcases List.mem_cons.1 hx with rfl | hx2
              · rfl
              simp at hx2
              subst hx2
              exact hfw
            · simp [authLoopGo, hm, hpos, hokB, encodeFrames]
          · have hconn : (authLoopGo cfg (fuel + 1) c
                (encodeFrame g ++ buf2)).1 =
                (postAuthLoopGo cfg (buf2.length + 1)
                  { c with state := .postAuth, serverBuf := [] } buf2).1 := by
              simp [authLoopGo, hm, hpos, hokB, hre, handlePostAuthLoop]
            have hout : (authLoopGo cfg (fuel + 1) c
                (encodeFrame g ++ buf2)).2 =
                Output.obsServerFrame g.type ::
                  Output.clientWrite (encodeFrame g) ::
                  (postAuthLoopGo cfg (buf2.length + 1)
                    { c with state := .postAuth, serverBuf := [] } buf2).2 := by
              simp [authLoopGo, hm, hpos, hokB, hre, handlePostAuthLoop]
            obtain ⟨pa1, parest⟩ := postAuthStream cfg gs (buf2.length + 1)
              { c with state := .postAuth, serverBuf := [] } buf2
              (by omega) hpre2 hwf2
            rw [hconn, hout]
            refine ⟨by rw [pa1], ?_⟩
            rcases parest with ⟨hst, hnz, fs1, fs2, hsplit, hleft⟩ |
              ⟨hst, hr2, hq, hnz, fs1, fs2, hsplit, hleft⟩ | ⟨hst, hnz⟩
            · right; left
              refine ⟨by rw [hst], ?_, g :: fs1, fs2, by simp [hsplit], ?_⟩
              · intro x hx
                rcases List.mem_cons.1 hx with rfl | hx2
                · rfl
                rcases List.mem_cons.1 hx2 with rfl | hx3
                · exact hfw
                · exact hnz x hx3
              · simp only [encodeFrames, List.append_assoc]
                rw [← hleft]
            · right; right; left
              obtain ⟨q, hqm⟩ := hq
              refine ⟨hst, hr2, ⟨q, by simp [hqm]⟩, ?_,
                g :: fs1, fs2, by simp [hsplit], ?_⟩
              · intro x hx
                rcases List.mem_cons.1 hx with rfl | hx2
                · rfl
                rcases List.mem_cons.1 hx2 with rfl | hx3
                · exact hfw
                · exact hnz x hx3
              · simp only [encodeFrames, List.append_assoc]
                rw [← hleft]
            · right; right; right
              refine ⟨hst, ?_⟩
              intro x hx
              rcases List.mem_cons.1 hx with rfl | hx2
              · rfl
              rcases List.mem_cons.1 hx2 with rfl | hx3
              · exact hfw
              · exact hnz x hx3
        · have hokB : isAuthOk
              { type := g.type,
                totalLength := (1 : Int) + (4 + (g.payload.length : Int)),
                payload := g.payload, raw := encodeFrame g } = false := by
            rw [isAuthOk_frame]
            simpa using hok
          have hconf2 : (!(g.type == 0x5a) && noEarlyRfq gs) = true := by
            have h2 := hconf
            unfold noEarlyRfq at h2
            rwa [if_neg (by simp [hok])] at h2
          have hgZ : ¬ g.type = 0x5a := by
            have := (Bool.and_eq_true_iff.1 hconf2).1
            simpa using this
          have hconfgs : noEarlyRfq gs = true :=
            (Bool.and_eq_true_iff.1 hconf2).2
          have hfw : isZwrite (Output.clientWrite (encodeFrame g)) = false := by
            show ((encodeFrame g).headD 0 == 0x5a) = false
            rw [encodeFrame_headD]
            simp [hgZ]
          have hconn : (authLoopGo cfg (fuel + 1) c
              (encodeFrame g ++ buf2)).1 =
              (authLoopGo cfg fuel c buf2).1 := by
            simp [authLoopGo, hm, hpos, hokB]
          have hout : (authLoopGo cfg (fuel + 1) c
              (encodeFrame g ++ buf2)).2 =
              Output.obsServerFrame g.type ::
                Output.clientWrite (encodeFrame g) ::
                (authLoopGo cfg fuel c buf2).2 := by
            simp [authLoopGo, hm, hpos, hokB]
          obtain ⟨ih1, ihrest⟩ := ih fuel c buf2 hf2 hpre2 hwf2 hconfgs
          rw [hconn, hout]
          refine ⟨ih1, ?_⟩
          rcases ihrest with ⟨hst, hnz, fs1, fs2, hsplit, hc2, hleft⟩ |
            ⟨hst, hnz, fs1, fs2, hsplit, hleft⟩ |
            ⟨hst, hr2, hq, hnz, fs1, fs2, hsplit, hleft⟩ | ⟨hst, hnz⟩
          · left
            refine ⟨hst, ?_, g :: fs1, fs2, by simp [hsplit], hc2, ?_⟩
            · intro x hx
              rcases List.mem_cons.1 hx with rfl | hx2
              · rfl
              rcases List.mem_cons.1 hx2 with rfl | hx3
              · exact hfw
              · exact hnz x hx3
            · simp only [encodeFrames, List.append_assoc]
              rw [← hleft]
          · right; left
            refine ⟨hst, ?_, g :: fs1, fs2, by simp [hsplit], ?_⟩
            · intro x hx
              rcases List.mem_cons.1 hx with rfl | hx2
              · rfl
              rcases List.mem_cons.1 hx2 with rfl | hx3
              · exact hfw
              · exact hnz x hx3
            · simp only [encodeFrames, List.append_assoc]
              rw [← hleft]
          · right; right; left
            obtain ⟨q, hqm⟩ := hq
            refine ⟨hst, hr2, ⟨q, by simp [hqm]⟩, ?_,
              g :: fs1, fs2, by simp [hsplit], ?_⟩
            · intro x hx
              rcases List.mem_cons.1 hx with rfl | hx2
              · rfl
              rcases List.mem_cons.1 hx2 with rfl | hx3
              · exact hfw
              · exact hnz x hx3
            · simp only [encodeFrames, List.append_assoc]
              rw [← hleft]
          · right; right; right
            refine ⟨hst, ?_⟩
            intro x hx
            rcases List.mem_cons.1 hx with rfl | hx2
            · rfl
            rcases List.mem_cons.1 hx2 with rfl | hx3
            · exact hfw
            · exact hnz x hx3

-- ── C1: isBypass never reverts to false ────────────────────────────────

lemma step_isBypass_mono (cfg : Config) (c : Conn) (e : Event)
    (h : c.isBypass = true) : (step cfg c e).1.isBypass = true := by
  unfold step
  by_cases hh : c.state = .hung
  · simp [hh, h]
  · rw [if_neg hh]
    cases e with
    | clientData b =>
        cases hs : c.state with
        | waitStartup =>
            show (handleStartupData cfg c b).1.isBypass = true
            exact (handleStartupData_spec cfg c b).1 h
        | _ => simp [h]
    | serverData b =>
        cases hs : c.state with
        | authenticating =>
            show (handleAuthLoop cfg c (c.serverBuf ++ b)).1.isBypass = true
            unfold handleAuthLoop
            rw [(authLoopGo_spec cfg c _ _).1, h]
        | postAuth =>
            show (handlePostAuthLoop cfg c (c.serverBuf ++ b)).1.isBypass = true
            unfold handlePostAuthLoop
            rw [(postAuthLoopGo_spec cfg c _ _).1, h]
        | injecting =>
            show (handleInjectionLoop c (c.serverBuf ++ b)).1.isBypass = true
            unfold handleInjectionLoop
            rw [(injectionLoopGo_spec c _ _).1, h]
        | _ => simp [h]
    | upstreamConnected =>
        show (handleUpstreamConnected c).1.isBypass = true
        rw [(handleUpstreamConnected_spec c).1, h]
    | socketError =>
        show (cleanup c).1.isBypass = true
        unfold cleanup
        split <;> simp [h]
    | socketClosed =>
        show (cleanup c).1.isBypass = true
        unfold cleanup
        split <;> simp [h]

-- ── C1: invariant preservation ─────────────────────────────────────────

lemma noZw_append (a b : List Output) (ha : noZw a) (hb : noZw b) :
    noZw (a ++ b) := by
  intro x hx
  rcases List.mem_append.1 hx with h | h
  · exact ha x h
  · exact hb x h

lemma noZw_nil : noZw [] := by
  intro x hx
  simp at hx

lemma cleanup_noZw (c : Conn) : noZw (cleanup c).2 := by
  rw [cleanup_out]
  split
  · exact noZw_nil
  · intro x hx
    simp at hx
    subst hx
    rfl

lemma C1Inv_firstZOrdered (outs : List Output) (c : Conn) (evs : List Event)
    (h : C1Inv outs c evs) : firstZOrdered outs := by
  cases hs : c.state <;> simp only [C1Inv, hs] at h
  · exact firstZOrdered_of_noZw _ h.1
  · exact firstZOrdered_of_noZw _ h.1
  · exact firstZOrdered_of_noZw _ h.1
  · exact firstZOrdered_of_noZw _ h.1
  · exact firstZOrdered_of_noZw _ h.1
  · exact h.1
  · exact h
  · exact h

lemma C1Inv_cleanup (outs : List Output) (c : Conn) (evs evs2 : List Event)
    (h : C1Inv outs c evs) :
    C1Inv (outs ++ (cleanup c).2) (cleanup c).1 evs2 := by
  have hfoz := C1Inv_firstZOrdered outs c evs h
  have h1 : (cleanup c).1.state = ConnState.closed := by rw [cleanup_conn]
  simp only [C1Inv, h1]
  exact (firstZOrdered_append _ _ hfoz (Or.inr (cleanup_noZw c))).1

lemma stream_cancel (fs fs1 fs2 : List Frame) (buf sb future : List Nat)
    (hsplit : fs = fs1 ++ fs2)
    (hleft : buf = encodeFrames fs1 ++ sb)
    (hpre : buf ++ future <+: encodeFrames fs) :
    (sb ++ future) <+: encodeFrames fs2 := by
  rw [hsplit, encodeFrames_append, hleft, List.append_assoc] at hpre
  exact (List.prefix_append_right_inj _).1 hpre

lemma wfFrames_of_append_right (fs1 fs2 : List Frame)
    (h : wfFrames (fs1 ++ fs2)) : wfFrames fs2 := by
  intro f hf
  exact h f (by simp [hf])

lemma run_isBypass_mono (cfg : Config) :
    ∀ (evs : List Event) (c : Conn), c.isBypass = true →
      (run cfg c evs).1.isBypass = true := by
  intro evs
  induction evs with
  | nil =>
      intro c h
      simpa [run] using h
  | cons e es ih =>
      intro c h
      simp only [run]
      exact ih _ (step_isBypass_mono cfg c e h)

/-- One conformant event preserves the C1 invariant (the bypass branch
of `handleStartupData` is excluded by `hnb`). -/
lemma C1Inv_step (cfg : Config) (c : Conn) (e : Event) (es : List Event)
    (outs : List Output)
    (hok : eventOkB c e = true)
    (hnb : (step cfg c e).1.isBypass = false)
    (hinv : C1Inv outs c (e :: es)) :
    C1Inv (outs ++ (step cfg c e).2) (step cfg c e).1 es := by
  by_cases hhung : c.state = .hung
  · have hstep : step cfg c e = (c, []) := by
      simp [step, hhung]
    rw [hstep]
    simp only [C1Inv, hhung] at hinv ⊢
    simpa using hinv
  · cases e with
    | socketError =>
        have hstep : step cfg c .socketError = cleanup c := by
          simp [step, hhung]
        rw [hstep]
        exact C1Inv_cleanup outs c _ es hinv
    | socketClosed =>
        have hstep : step cfg c .socketClosed = cleanup c := by
          simp [step, hhung]
        rw [hstep]
        exact C1Inv_cleanup outs c _ es hinv
    | upstreamConnected =>
        have hcn : c.state = ConnState.connecting := by
          simpa [eventOkB] using hok
        have hstep : step cfg c .upstreamConnected =
            handleUpstreamConnected c := by
          simp [step, hhung]
        rw [hstep] at hnb ⊢
        simp only [C1Inv, hcn] at hinv
        obtain ⟨hz, hb, fs, hwf, hconf, hstream⟩ := hinv
        simp only [serverBytes] at hstream
        cases hp : c.pendingStartup with
        | none =>
            have h1 : handleUpstreamConnected c = (c, []) := by
              simp [handleUpstreamConnected, hp]
            rw [h1]
            simp only [C1Inv, hcn]
            exact ⟨by simpa using hz, hb, fs, hwf, hconf, hstream⟩
        | some s =>
            have h1 : handleUpstreamConnected c =
                ({ c with clientBuf := [], state := .authenticating },
                 .serverWrite s ::
                   (if c.clientBuf = [] then []
                    else [Output.serverWrite c.clientBuf])) := by
              simp [handleUpstreamConnected, hp, hb]
            rw [h1]
            simp only [C1Inv]
            refine ⟨?_, hb, fs, hwf, hconf, hstream⟩
            refine noZw_append _ _ hz ?_
            intro x hx
            rcases List.mem_cons.1 hx with rfl | hx2
            · rfl
            · by_cases hcb : c.clientBuf = []
              · rw [if_pos hcb] at hx2
                simp at hx2
              · rw [if_neg hcb] at hx2
                simp at hx2
                subst hx2
                rfl
    | clientData b =>
        cases hs : c.state with
        | hung => exact absurd hs hhung
        | closed =>
            have hstep : step cfg c (.clientData b) = (c, []) := by
              simp [step, hhung, hs]
            rw [hstep]
            simp only [C1Inv, hs] at hinv ⊢
            simpa using hinv
        | connecting =>
            have hstep : step cfg c (.clientData b) = (c, []) := by
              simp [step, hhung, hs]
            rw [hstep]
            simp only [C1Inv, hs] at hinv ⊢
            obtain ⟨hz, hb, fs, hwf, hconf, hstream⟩ := hinv
            simp only [serverBytes] at hstream
            exact ⟨by simpa using hz, hb, fs, hwf, hconf, hstream⟩
        | authenticating =>
            have hstep : step cfg c (.clientData b) =
                (c, [.serverWrite b]) := by
              simp [step, hhung, hs]
            rw [hstep]
            simp only [C1Inv, hs] at hinv ⊢
            obtain ⟨hz, hb, fs, hwf, hconf, hstream⟩ := hinv
            simp only [serverBytes] at hstream
            refine ⟨noZw_append _ _ hz ?_, hb, fs, hwf, hconf, hstream⟩
            intro x hx
            simp at hx
            subst hx
            rfl
        | postAuth =>
            have hstep : step cfg c (.clientData b) =
                (c, [.serverWrite b]) := by
              simp [step, hhung, hs]
            rw [hstep]
            simp only [C1Inv, hs] at hinv ⊢
            obtain ⟨hz, hb, fs, hwf, hstream⟩ := hinv
            simp only [serverBytes] at hstream
            refine ⟨noZw_append _ _ hz ?_, hb, fs, hwf, hstream⟩
            intro x hx
            simp at hx
            subst hx
            rfl
        | injecting =>
            have hstep : step cfg c (.clientData b) =
                ({ c with clientBuf := c.clientBuf ++ b }, []) := by
              simp [step, hhung, hs]
            rw [hstep]
            simp only [C1Inv, hs] at hinv ⊢
            obtain ⟨hz, hb, hq, hr, fs, hwf, hstream⟩ := hinv
            simp only [serverBytes] at hstream
            exact ⟨by simpa using hz, hb, by simpa using hq, hr, fs, hwf,
              hstream⟩
        | transparent =>
            have hstep : step cfg c (.clientData b) =
                (c, [.serverWrite b]) := by
              simp [step, hhung, hs]
            rw [hstep]
            simp only [C1Inv, hs] at hinv ⊢
            obtain ⟨hfo, hsome⟩ := hinv
            have hap := firstZOrdered_append outs [Output.serverWrite b]
              hfo (Or.inl hsome)
            exact ⟨hap.1, by rw [hap.2]; exact hsome⟩
        | waitStartup =>
            have hstep : step cfg c (.clientData b) =
                handleStartupData cfg c b := by
              simp [step, hhung, hs]
            rw [hstep] at hnb ⊢
            simp only [C1Inv, hs] at hinv
            obtain ⟨hz, hb, fs, hwf, hconf, hstream⟩ := hinv
            simp only [serverBytes] at hstream
            unfold handleStartupData at hnb ⊢
            cases hm : nextStartupMessage (c.clientBuf ++ b) with
            | none =>
                simp only [hm] at hnb ⊢
                simp only [C1Inv, hs]
                exact ⟨by simpa using hz, hb, fs, hwf, hconf, hstream⟩
            | some p =>
                obtain ⟨msg, rest⟩ := p
                simp only [hm] at hnb ⊢
                by_cases hssl : isSSLRequest msg = true
                · rw [if_pos hssl] at hnb ⊢
                  simp only [C1Inv, hs]
                  refine ⟨?_, hb, fs, hwf, hconf, hstream⟩
                  refine noZw_append _ _ hz ?_
                  intro x hx
                  simp at hx
                  subst hx
                  rfl
                · rw [if_neg hssl] at hnb ⊢
                  by_cases hcan : isCancelRequest msg = true
                  · rw [if_pos hcan] at hnb ⊢
                    simp only [C1Inv]
                    apply firstZOrdered_of_noZw
                    refine noZw_append _ _ hz ?_
                    intro x hx
                    simp at hx
                    subst hx
                    rfl
                  · rw [if_neg hcan] at hnb ⊢
                    cases hd : decideStartupUser cfg
                        (getAssoc (parseStartupMessage msg) (ascii "user")) with
                    | reject st m d =>
                        simp only [hd] at hnb ⊢
                        simp only [sendErrorAndClose, C1Inv]
                        apply firstZOrdered_of_noZw
                        refine noZw_append _ _ hz ?_
                        intro x hx
                        rcases List.mem_cons.1 hx with rfl | hx2
                        · rfl
                        · simp at hx2
                          subst hx2
                          rfl
                    | bypass =>
                        simp only [hd] at hnb
                        simp at hnb
                    | proceed role values =>
                        simp only [hd] at hnb ⊢
                        simp only [C1Inv]
                        refine ⟨?_, hb, fs, hwf, hconf, hstream⟩
                        refine noZw_append _ _ hz ?_
                        intro x hx
                        simp at hx
                        subst hx
                        rfl
    | serverData b =>
        cases hs : c.state with
        | hung => exact absurd hs hhung
        | waitStartup => exact absurd hok (by simp [eventOkB, hs])
        | connecting => exact absurd hok (by simp [eventOkB, hs])
        | closed => exact absurd hok (by simp [eventOkB, hs])
        | transparent =>
            have hstep : step cfg c (.serverData b) =
                (c, [.clientWrite b]) := by
              simp [step, hhung, hs]
            rw [hstep]
            simp only [C1Inv, hs] at hinv ⊢
            obtain ⟨hfo, hsome⟩ := hinv
            have hap := firstZOrdered_append outs [Output.clientWrite b]
              hfo (Or.inl hsome)
            exact ⟨hap.1, by rw [hap.2]; exact hsome⟩
        | authenticating =>
            have hstep : step cfg c (.serverData b) =
                authLoopGo cfg ((c.serverBuf ++ b).length + 1) c
                  (c.serverBuf ++ b) := by
              simp [step, hhung, hs, handleAuthLoop]
            rw [hstep]
            simp only [C1Inv, hs] at hinv
            obtain ⟨hz, hb, fs, hwf, hconf, hstream⟩ := hinv
            simp only [serverBytes] at hstream
            have hassoc : (c.serverBuf ++ b) ++ serverBytes es <+:
                encodeFrames fs := by
              simpa [List.append_assoc] using hstream
            have hbufpre : (c.serverBuf ++ b) <+: encodeFrames fs :=
              (List.prefix_append _ _).trans hassoc
            obtain ⟨ha1, harest⟩ := authStream cfg fs
              ((c.serverBuf ++ b).length + 1) c (c.serverBuf ++ b)
              (by omega) hbufpre hwf hconf
            rcases harest with ⟨hst, hnz, fs1, fs2, hsplit, hc2, hleft⟩ |
              ⟨hst, hnz, fs1, fs2, hsplit, hleft⟩ |
              ⟨hst, hr2, hq, hnz, fs1, fs2, hsplit, hleft⟩ | ⟨hst, hnz⟩
            · have hst2 : (authLoopGo cfg ((c.serverBuf ++ b).length + 1) c
                  (c.serverBuf ++ b)).1.state = ConnState.authenticating := by
                rw [hst, hs]
              simp only [C1Inv, hst2]
              exact ⟨noZw_append _ _ hz hnz, by rw [ha1]; exact hb, fs2,
                wfFrames_of_append_right fs1 fs2 (hsplit ▸ hwf), hc2,
                stream_cancel fs fs1 fs2 _ _ _ hsplit hleft hassoc⟩
            · simp only [C1Inv, hst]
              exact ⟨noZw_append _ _ hz hnz, by rw [ha1]; exact hb, fs2,
                wfFrames_of_append_right fs1 fs2 (hsplit ▸ hwf),
                stream_cancel fs fs1 fs2 _ _ _ hsplit hleft hassoc⟩
            · simp only [C1Inv, hst]
              obtain ⟨q, hqm⟩ := hq
              exact ⟨noZw_append _ _ hz hnz, by rw [ha1]; exact hb,
                ⟨q, List.mem_append_right _ hqm⟩, hr2, fs2,
                wfFrames_of_append_right fs1 fs2 (hsplit ▸ hwf),
                stream_cancel fs fs1 fs2 _ _ _ hsplit hleft hassoc⟩
            · simp only [C1Inv, hst]
              exact firstZOrdered_of_noZw _ (noZw_append _ _ hz hnz)
        | postAuth =>
            have hstep : step cfg c (.serverData b) =
                postAuthLoopGo cfg ((c.serverBuf ++ b).length + 1) c
                  (c.serverBuf ++ b) := by
              simp [step, hhung, hs, handlePostAuthLoop]
            rw [hstep]
            simp only [C1Inv, hs] at hinv
            obtain ⟨hz, hb, fs, hwf, hstream⟩ := hinv
            simp only [serverBytes] at hstream
            have hassoc : (c.serverBuf ++ b) ++ serverBytes es <+:
                encodeFrames fs := by
              simpa [List.append_assoc] using hstream
            have hbufpre : (c.serverBuf ++ b) <+: encodeFrames fs :=
              (List.prefix_append _ _).trans hassoc
            obtain ⟨hp1, hprest⟩ := postAuthStream cfg fs
              ((c.serverBuf ++ b).length + 1) c (c.serverBuf ++ b)
              (by omega) hbufpre hwf
            rcases hprest with ⟨hst, hnz, fs1, fs2, hsplit, hleft⟩ |
              ⟨hst, hr2, hq, hnz, fs1, fs2, hsplit, hleft⟩ | ⟨hst, hnz⟩
            · have hst2 : (postAuthLoopGo cfg
                  ((c.serverBuf ++ b).length + 1) c
                  (c.serverBuf ++ b)).1.state = ConnState.postAuth := by
                rw [hst, hs]
              simp only [C1Inv, hst2]
              exact ⟨noZw_append _ _ hz hnz, by rw [hp1]; exact hb, fs2,
                wfFrames_of_append_right fs1 fs2 (hsplit ▸ hwf),
                stream_cancel fs fs1 fs2 _ _ _ hsplit hleft hassoc⟩
            · simp only [C1Inv, hst]
              obtain ⟨q, hqm⟩ := hq
              exact ⟨noZw_append _ _ hz hnz, by rw [hp1]; exact hb,
                ⟨q, List.mem_append_right _ hqm⟩, hr2, fs2,
                wfFrames_of_append_right fs1 fs2 (hsplit ▸ hwf),
                stream_cancel fs fs1 fs2 _ _ _ hsplit hleft hassoc⟩
            · simp only [C1Inv, hst]
              exact firstZOrdered_of_noZw _ (noZw_append _ _ hz hnz)
        | injecting =>
            have hstep : step cfg c (.serverData b) =
                injectionLoopGo ((c.serverBuf ++ b).length + 1) c
                  (c.serverBuf ++ b) := by
              simp [step, hhung, hs, handleInjectionLoop]
            rw [hstep]
            simp only [C1Inv, hs] at hinv
            obtain ⟨hz, hb, hq0, ⟨r, hbr, hrZ⟩, fs, hwf, hstream⟩ := hinv
            simp only [serverBytes] at hstream
            have hassoc : (c.serverBuf ++ b) ++ serverBytes es <+:
                encodeFrames fs := by
              simpa [List.append_assoc] using hstream
            have hbufpre : (c.serverBuf ++ b) <+: encodeFrames fs :=
              (List.prefix_append _ _).trans hassoc
            obtain ⟨hi1, hirest⟩ := injStream r fs
              ((c.serverBuf ++ b).length + 1) c (c.serverBuf ++ b)
              (by omega) hbufpre hwf hbr
            rcases hirest with ⟨hst, hbq, hnz, fs1, fs2, hsplit, hleft⟩ |
              ⟨hst, hnz⟩ | ⟨hst, os1, os2, hoeq, hnz⟩
            · have hst2 : (injectionLoopGo ((c.serverBuf ++ b).length + 1) c
                  (c.serverBuf ++ b)).1.state = ConnState.injecting := by
                rw [hst, hs]
              simp only [C1Inv, hst2]
              obtain ⟨q0, hq0m⟩ := hq0
              exact ⟨noZw_append _ _ hz hnz, by rw [hi1]; exact hb,
                ⟨q0, List.mem_append_left _ hq0m⟩, ⟨r, hbq, hrZ⟩, fs2,
                wfFrames_of_append_right fs1 fs2 (hsplit ▸ hwf),
                stream_cancel fs fs1 fs2 _ _ _ hsplit hleft hassoc⟩
            · simp only [C1Inv, hst]
              exact firstZOrdered_of_noZw _ (noZw_append _ _ hz hnz)
            · simp only [C1Inv, hst]
              rw [hoeq]
              have heq : outs ++ (os1 ++ Output.obsServerFrame 0x5a ::
                  Output.clientWrite r :: os2) =
                  (outs ++ os1 ++ [Output.obsServerFrame 0x5a]) ++
                    Output.clientWrite r :: os2 := by
                simp
              rw [heq]
              refine firstZOrdered_first _ _ _ ?_ ?_ ?_ ?_
              · intro x hx
                rcases List.mem_append.1 hx with hx1 | hx2
                · rcases List.mem_append.1 hx1 with hxa | hxb
                  · exact hz x hxa
                  · exact hnz x hxb
                · simp at hx2
                  subst hx2
                  rfl
              · show (r.headD 0 == 0x5a) = true
                rw [hrZ]
                rfl
              · obtain ⟨q0, hq0m⟩ := hq0
                exact ⟨q0, List.mem_append_left _
                  (List.mem_append_left _ hq0m)⟩
              · exact List.getLast?_concat _

lemma C1_main (cfg : Config) :
    ∀ (evs : List Event) (c : Conn) (outs : List Output),
      eventsOkB cfg c evs = true →
      (run cfg c evs).1.isBypass = false →
      C1Inv outs c evs →
      firstZOrdered (outs ++ (run cfg c evs).2) := by
  intro evs
  induction evs with
  | nil =>
      intro c outs _ _ hinv
      simp only [run, List.append_nil]
      exact C1Inv_firstZOrdered outs c [] hinv
  | cons e es ih =>
      intro c outs hok hfin hinv
      have hok1 : eventOkB c e = true := by
        rw [eventsOkB] at hok
        exact (Bool.and_eq_true_iff.1 hok).1
      have hok2 : eventsOkB cfg (step cfg c e).1 es = true := by
        rw [eventsOkB] at hok
        exact (Bool.and_eq_true_iff.1 hok).2
      have hfin2 : (run cfg (step cfg c e).1 es).1.isBypass = false := by
        simp only [run] at hfin
        exact hfin
      have hnb : (step cfg c e).1.isBypass = false := by
        cases hsb : (step cfg c e).1.isBypass with
        | false => rfl
        | true =>
            rw [run_isBypass_mono cfg es _ hsb] at hfin2
            exact absurd hfin2 (by simp)
      have hinv2 := C1Inv_step cfg c e es outs hok1 hnb hinv
      have hrec := ih (step cfg c e).1 (outs ++ (step cfg c e).2)
        hok2 hfin2 hinv2
      simp only [run]
      simpa [List.append_assoc] using hrec

/-- **C1.**  For every non-bypass connection driven by a conformant event
sequence whose upstream bytes are a prefix of a well-formed backend frame
stream with no ReadyForQuery before AuthenticationOk, the first
'Z'-headed (ReadyForQuery) frame written to the client — if any — comes
strictly after the injection `Query` write, and the output immediately
before it is the observation of a complete type-'Z' server frame: the
upstream's ReadyForQuery answering the injection, whose buffered raw
frame is what is being released. -/
theorem C1_ready_only_after_injection (cfg : Config) (evs : List Event)
    (fs : List Frame) (o1 o2 : List Output) (b : List Nat)
    (hconform : eventsOkB cfg initConn evs = true)
    (hnotbypass : (run cfg initConn evs).1.isBypass = false)
    (hwf : wfFrames fs) (hrfqfree : noEarlyRfq fs = true)
    (hserver : serverBytes evs <+: encodeFrames fs)
    (houts : (run cfg initConn evs).2 = o1 ++ Output.clientWrite b :: o2)
    (hb : b.headD 0 = 0x5a)
    (hfirst : ∀ o ∈ o1, isZwrite o = false) :
    (∃ q, Output.injectionWrite q ∈ o1) ∧
    o1.getLast? = some (Output.obsServerFrame 0x5a) := by
  have hinv : C1Inv [] initConn evs := by
    simp only [C1Inv, initConn]
    refine ⟨noZw_nil, by trivial, fs, hwf, hrfqfree, ?_⟩
    simpa using hserver
  have hmain := C1_main cfg evs initConn [] hconform hnotbypass hinv
  rw [List.nil_append, houts] at hmain
  exact firstZOrdered_extract o1 o2 b hmain hb hfirst

/-- Concrete configuration for the C1 witness run. -/
def c1cfg : Config :=
  ⟨46, 58, [ascii "app.current_tenant_id"], [ascii "postgres"]⟩

def c1startup : List Nat :=
  buildStartupMessage
    [(ascii "user", ascii "app_user.acme"), (ascii "database", ascii "db")]

/-- AuthenticationOk, then the ReadyForQuery that ends authentication,
then the ReadyForQuery answering the injection. -/
def c1frames : List Frame :=
  [⟨0x52, [0, 0, 0, 0]⟩, ⟨0x5a, [73]⟩, ⟨0x5a, [73]⟩]

def c1events : List Event :=
  [.clientData c1startup, .upstreamConnected,
   .serverData (encodeFrame ⟨0x52, [0, 0, 0, 0]⟩),
   .serverData (encodeFrame ⟨0x5a, [73]⟩),
   .serverData (encodeFrame ⟨0x5a, [73]⟩)]

def c1o1 : List Output := ((run c1cfg initConn c1events).2).take 7

theorem C1_ready_only_after_injection_witness :
    (∃ q, Output.injectionWrite q ∈ c1o1) ∧
    c1o1.getLast? = some (Output.obsServerFrame 0x5a) :=
  C1_ready_only_after_injection c1cfg c1events c1frames c1o1 []
    (encodeFrame ⟨0x5a, [73]⟩)
    (by decide) (by decide) (by decide) (by decide) (by decide)
    (by decide) (by decide) (by decide)

end Pgvpd
